import Mathlib

/-!
String utilities of `src/cpp/src/string_utils.h`.

A shallow embedding of `utils::StringUtils` and the properties of its
functions.

* A `char` is a byte, `Fin 256`; a `std::string` is the list of its bytes.
* `size_t` is 64 bits wide: a `Nat` below `SIZE_MOD = 2 ^ 64`, with the
  arithmetic of the source (`end - start`, `end + 1`, `last - first + 1`,
  `str.length() - suffix.length()`) reduced modulo `SIZE_MOD`.
  `std::string::npos` is `SIZE_MOD - 1`.
* `std::string::substr` throws `std::out_of_range` when its position is
  past the end, so every function that calls it returns an `Outcome`.
* The `while` loop of `split` runs on fuel; the theorems show that the fuel
  `split` starts with is always enough.
-/

namespace StringUtils

/-! ## Data model -/

/-- A C++ `char`, by its byte value. -/
abbrev CChar := Fin 256

/-- A `std::string`: its bytes in order. -/
abbrev CppString := List CChar

/-- The modulus of `size_t` arithmetic, `2 ^ 64`. -/
def SIZE_MOD : Nat := 18446744073709551616

/-- The constant `std::string::npos`, the largest `size_t`. -/
def npos : Nat := SIZE_MOD - 1

/-- Addition of two `size_t` values. -/
def sizeAdd (a b : Nat) : Nat := (a + b) % SIZE_MOD

/-- Subtraction of two `size_t` values (wraps around below zero). -/
def sizeSub (a b : Nat) : Nat := (a + SIZE_MOD - b) % SIZE_MOD

/-- What a call produces: a value, a thrown `std::out_of_range`, or no value
because the loop fuel ran out. -/
inductive Outcome (α : Type) where
  | ret (v : α)
  | outOfRange
  | fuelOut
  deriving DecidableEq, Repr

/-- Sequencing: the continuation runs on a returned value, anything else
propagates. -/
def Outcome.bind {α β : Type} (o : Outcome α) (f : α → Outcome β) : Outcome β :=
  match o with
  | .ret v => f v
  | .outOfRange => .outOfRange
  | .fuelOut => .fuelOut

/-- The bytes of a string literal (code points reduced to a byte). -/
def lit (s : String) : CppString := s.toList.map fun c => Fin.ofNat c.toNat

/-- The byte of a character literal. -/
def chr (c : Char) : CChar := Fin.ofNat c.toNat

/-! ## The `std::string` members the source calls -/

/-- The member `substr(pos, count)`: throws when `pos > size()`, otherwise the
characters `[pos, pos + min(count, size() - pos))`. -/
def substr (s : CppString) (pos count : Nat) : Outcome CppString :=
  if pos > s.length then .outOfRange else .ret ((s.drop pos).take count)

/-- Index of the first `ch` in `l`, counted from `i`. -/
def findAux (ch : CChar) : CppString → Nat → Option Nat
  | [], _ => none
  | c :: cs, i => if c = ch then some i else findAux ch cs (i + 1)

/-- The member `find(ch, pos)`: the first index `≥ pos` holding `ch`, or
`npos`. -/
def find (s : CppString) (ch : CChar) (pos : Nat) : Nat :=
  (findAux ch (s.drop pos) pos).getD npos

/-- Index in `l` of the first character outside `set`. -/
def firstNotOf (set : CppString) : CppString → Option Nat
  | [] => none
  | c :: cs => if c ∈ set then (firstNotOf set cs).map (· + 1) else some 0

/-- Index in `l` of the last character outside `set`. -/
def lastNotOf (set : CppString) : CppString → Option Nat
  | [] => none
  | c :: cs =>
    match lastNotOf set cs with
    | some j => some (j + 1)
    | none => if c ∈ set then none else some 0

/-- The member `find_first_not_of(set)`: an index or `npos`. -/
def find_first_not_of (s set : CppString) : Nat := (firstNotOf set s).getD npos

/-- The member `find_last_not_of(set)`: an index or `npos`. -/
def find_last_not_of (s set : CppString) : Nat := (lastNotOf set s).getD npos

/-- The C function `toupper` in the "C" locale: `a..z` go to `A..Z`, every
other byte is returned as it is. -/
def toupper (c : CChar) : CChar :=
  if 97 ≤ c.val ∧ c.val ≤ 122 then Fin.ofNat (c.val - 32) else c

/-- The C function `tolower` in the "C" locale: `A..Z` go to `a..z`, every
other byte is returned as it is. -/
def tolower (c : CChar) : CChar :=
  if 65 ≤ c.val ∧ c.val ≤ 90 then Fin.ofNat (c.val + 32) else c

/-! ## `StringUtils` -/

/-- `StringUtils::toUpper`: `std::transform` with `::toupper` over a copy. -/
def toUpper (str : CppString) : CppString := str.map toupper

/-- `StringUtils::toLower`: `std::transform` with `::tolower` over a copy. -/
def toLower (str : CppString) : CppString := str.map tolower

/-- `StringUtils::startsWith`. -/
def startsWith (str pfx : CppString) : Outcome Bool :=
  if pfx.length > str.length then .ret false
  else (substr str 0 pfx.length).bind fun sub => .ret (decide (sub = pfx))

/-- `StringUtils::endsWith`. -/
def endsWith (str suffix : CppString) : Outcome Bool :=
  if suffix.length > str.length then .ret false
  else (substr str (sizeSub str.length suffix.length) npos).bind fun sub =>
    .ret (decide (sub = suffix))

/-- The local variables of `split` that the loop changes. -/
structure SplitState where
  tokens : List CppString
  start : Nat
  end_ : Nat
  deriving DecidableEq, Repr

/-- One run of the body of the `while` loop of `split`. -/
def splitStep (str : CppString) (delimiter : CChar) (st : SplitState) :
    Outcome SplitState :=
  (substr str st.start (sizeSub st.end_ st.start)).bind fun token =>
    let start := sizeAdd st.end_ 1
    .ret { tokens := st.tokens ++ [token], start := start,
           end_ := find str delimiter start }

/-- The `while (end != npos)` loop of `split` followed by the last
`push_back`; one unit of fuel per test of the loop condition. -/
def splitLoop (str : CppString) (delimiter : CChar) :
    Nat → SplitState → Outcome (List CppString)
  | 0, _ => .fuelOut
  | fuel + 1, st =>
    if st.end_ ≠ npos then
      (splitStep str delimiter st).bind (splitLoop str delimiter fuel)
    else
      (substr str st.start npos).bind fun last => .ret (st.tokens ++ [last])

/-- `StringUtils::split`. -/
def split (str : CppString) (delimiter : CChar) : Outcome (List CppString) :=
  splitLoop str delimiter (str.length + 1)
    { tokens := [], start := 0, end_ := find str delimiter 0 }

/-- The character set `" \t\n\r"` of `trim`. -/
def WHITESPACE : CppString := [32, 9, 10, 13]

/-- `StringUtils::trim`. -/
def trim (str : CppString) : Outcome CppString :=
  let first := find_first_not_of str WHITESPACE
  if first = npos then .ret []
  else
    let last := find_last_not_of str WHITESPACE
    substr str first (sizeAdd (sizeSub last first) 1)

/-! ## Reference definitions used in the statements -/

/-- The lower-case ASCII letters, in alphabetical order. -/
def LOWER_LETTERS : CppString := lit "abcdefghijklmnopqrstuvwxyz"

/-- The upper-case ASCII letters, in alphabetical order. -/
def UPPER_LETTERS : CppString := lit "ABCDEFGHIJKLMNOPQRSTUVWXYZ"

/-- The upper-case counterpart of a character: the letter of `A..Z` at the
place the character has in `a..z`; a character that is not in `a..z` has
itself as counterpart. -/
def upperCounterpart (c : CChar) : CChar :=
  UPPER_LETTERS.getD (LOWER_LETTERS.indexOf c) c

/-- The lower-case counterpart of a character: the letter of `a..z` at the
place the character has in `A..Z`; a character that is not in `A..Z` has
itself as counterpart. -/
def lowerCounterpart (c : CChar) : CChar :=
  LOWER_LETTERS.getD (UPPER_LETTERS.indexOf c) c

/-- The tokens of `l` at the delimiter `d`, by recursion on `l`: the
reference the loop of `split` is compared with. -/
def splitRef (d : CChar) : CppString → List CppString
  | [] => [[]]
  | c :: cs =>
    if c = d then [] :: splitRef d cs
    else
      match splitRef d cs with
      | t :: ts => (c :: t) :: ts
      | [] => [[c]]

/-- The tokens joined in order, one `d` between two consecutive tokens. -/
def joinWith (d : CChar) : List CppString → CppString
  | [] => []
  | [t] => t
  | t :: u :: us => t ++ d :: joinWith d (u :: us)

/-- One of the four characters space, `'\t'`, `'\n'`, `'\r'`. -/
def IsTrimChar (c : CChar) : Prop :=
  c = chr ' ' ∨ c = chr '\t' ∨ c = chr '\n' ∨ c = chr '\r'

instance (c : CChar) : Decidable (IsTrimChar c) :=
  inferInstanceAs (Decidable (c = chr ' ' ∨ c = chr '\t' ∨ c = chr '\n' ∨ c = chr '\r'))

/-- A string made only of the characters space, `'\t'`, `'\n'`, `'\r'`. -/
def OnlyTrimChars (l : CppString) : Prop := ∀ c ∈ l, IsTrimChar c

instance (l : CppString) : Decidable (OnlyTrimChars l) :=
  inferInstanceAs (Decidable (∀ c ∈ l, IsTrimChar c))

/-- A string without any character of `'a'..'z'`. -/
def NoLowerCase (s : CppString) : Prop := ∀ c ∈ s, ¬ (chr 'a' ≤ c ∧ c ≤ chr 'z')

instance (s : CppString) : Decidable (NoLowerCase s) :=
  inferInstanceAs (Decidable (∀ c ∈ s, ¬ (chr 'a' ≤ c ∧ c ≤ chr 'z')))

/-- A string without any character of `'A'..'Z'`. -/
def NoUpperCase (s : CppString) : Prop := ∀ c ∈ s, ¬ (chr 'A' ≤ c ∧ c ≤ chr 'Z')

instance (s : CppString) : Decidable (NoUpperCase s) :=
  inferInstanceAs (Decidable (∀ c ∈ s, ¬ (chr 'A' ≤ c ∧ c ≤ chr 'Z')))

/-- The C function `isspace` in the "C" locale: true of space, `'\t'`, `'\n'`,
`'\v'`, `'\f'` and `'\r'`, the bytes 32 and 9 to 13. -/
def isspace (c : CChar) : Bool := decide (c.val = 32 ∨ (9 ≤ c.val ∧ c.val ≤ 13))

/-- The loop of `split` again, keeping what `splitLoop` passes through: the
state at each test of the loop condition `end != npos`, in order. The loop
body ran once between two consecutive states; a last state with
`end_ = npos` is the exit of the loop. -/
def splitTrace (str : CppString) (delimiter : CChar) :
    Nat → SplitState → List SplitState
  | 0, _ => []
  | fuel + 1, st =>
    st ::
      (if st.end_ ≠ npos then
        match splitStep str delimiter st with
        | .ret next => splitTrace str delimiter fuel next
        | .outOfRange => []
        | .fuelOut => []
      else [])

/-- What one run of the loop body of `split` does to `start`, for a string of
`n` characters: the loop condition held (`end != npos`), the new `start` is
`end + 1`, it is strictly greater than the `start` of before and at most
`n`. -/
def Advances (n : Nat) (st next : SplitState) : Prop :=
  st.end_ ≠ npos ∧ next.start = st.end_ + 1 ∧ st.start < next.start ∧ next.start ≤ n

instance (n : Nat) (st next : SplitState) : Decidable (Advances n st next) :=
  inferInstanceAs (Decidable
    (st.end_ ≠ npos ∧ next.start = st.end_ + 1 ∧ st.start < next.start ∧ next.start ≤ n))

end StringUtils

/-!
The mock class `wx::Button` of `src/examples/tests/unit/cpp/widget_core_test.cpp`.
An object is the record of its three private fields; a member function that
changes the object returns the new record.
-/

namespace wx

open StringUtils

/-- The fields of `wx::Button`. -/
structure Button where
  label_ : CppString
  enabled_ : Bool
  clicked_ : Bool
  deriving DecidableEq, Repr

/-- The constructor `Button(label, enabled)`:
`label_(label), enabled_(enabled), clicked_(false)`. -/
def Button.create (label : CppString) (enabled : Bool) : Button :=
  { label_ := label, enabled_ := enabled, clicked_ := false }

/-- The constructor called without the flag: the declaration's default
argument `enabled = true` is passed. -/
def Button.createDefault (label : CppString) : Button := Button.create label true

/-- `GetLabel() const`. -/
def Button.GetLabel (b : Button) : CppString := b.label_

/-- `IsEnabled() const`. -/
def Button.IsEnabled (b : Button) : Bool := b.enabled_

/-- `SetEnabled(enabled)`: `enabled_ = enabled`. -/
def Button.SetEnabled (b : Button) (enabled : Bool) : Button :=
  { b with enabled_ := enabled }

/-- `Click()`: `if (enabled_) clicked_ = true`. -/
def Button.Click (b : Button) : Button :=
  if b.enabled_ then { b with clicked_ := true } else b

/-- `WasClicked() const`. -/
def Button.WasClicked (b : Button) : Bool := b.clicked_

/-- A call that may change a `wx::Button`: `SetEnabled(enabled)` or
`Click()`. -/
inductive ButtonCall where
  | setEnabled (enabled : Bool)
  | click
  deriving DecidableEq, Repr

/-- The button after one call. -/
def Button.call (b : Button) : ButtonCall → Button
  | .setEnabled enabled => b.SetEnabled enabled
  | .click => b.Click

/-- The button after a sequence of calls, first call first. -/
def Button.calls (b : Button) (cs : List ButtonCall) : Button :=
  cs.foldl Button.call b

end wx

/-!
The credential-authentication and session-token service,
`security::Authentication` of the header `security/authentication.h`.
The repository holds its tests (`authentication_test.cpp`) and not the
header, so the service is modelled from sections 3, 4 and 7 of the
specification: a state (clock, session table, rate-limit table) and one
function per operation that returns the result and the next state.
-/

namespace security

open StringUtils

/-- Modelled from the spec: the enum `AuthError` of the missing header, the
error taxonomy of section 7, under the names the tests use. -/
inductive AuthError where
  | EMPTY_USERNAME
  | EMPTY_PASSWORD
  | RATE_LIMITED
  | INVALID_CREDENTIALS
  deriving DecidableEq, Repr

/-- Modelled from the spec: the struct `AuthResult` of the missing header
(section 3): success flag, resolved identity (on success), issued token (on
success, otherwise empty) and error classification (on failure). -/
structure AuthResult where
  success : Bool
  userId : CppString
  token : CppString
  errorCode : Option AuthError
  deriving DecidableEq, Repr

/-- Modelled from the spec: the Session record of the missing Session Store
(section 3): token, owning identity, issue timestamp, expiry timestamp. -/
structure Session where
  token : CppString
  identity : CppString
  issued : Nat
  expiry : Nat
  deriving DecidableEq, Repr

/-- Modelled from the spec: the Rate-Limit Counter of the missing Rate Limiter
(section 3): per identity, the count of consecutive failed attempts and the
timestamp of the window start. -/
structure RateCounter where
  identity : CppString
  failures : Nat
  windowStart : Nat
  deriving DecidableEq, Repr

/-- Modelled from the spec: the failure threshold of the missing Rate Limiter,
the value of section 9 ("5 failures"). -/
def MAX_FAILED_ATTEMPTS : Nat := 5

/-- Modelled from the spec: the time-to-live of a session of the missing
Session Store, in seconds, the value of section 9 ("3600s TTL"). -/
def TOKEN_TTL : Nat := 3600

/-- Modelled from the spec: what the missing service is configured with and
the spec leaves open. `verify` is the Credential Verifier over its backing
store (section 4.1); `cooldown` is the configured cool-down of the Rate
Limiter, in seconds, and `slidingWindow` its window policy (section 9);
`generate` encodes the entropy drawn for a token as text and `wellFormed`
recognises the generation format (section 4.3). A cool-down lasts some time,
a generated token is of the expected format and "populated" (section 4.4),
and tokens are unique (section 3). -/
structure Config where
  verify : CppString → CppString → Bool
  cooldown : Nat
  slidingWindow : Bool
  generate : Nat → CppString
  wellFormed : CppString → Bool
  cooldown_pos : 0 < cooldown
  generate_wellFormed : ∀ n, wellFormed (generate n) = true
  generate_ne_nil : ∀ n, generate n ≠ []
  generate_inj : ∀ m n, generate m = generate n → m = n

/-- Modelled from the spec: the state of the missing `Authentication` object:
the Clock (`now`, in seconds), the Session Store, the table of the Rate
Limiter, and the entropy the next token is generated from. -/
structure State where
  now : Nat
  sessions : List Session
  counters : List RateCounter
  entropy : Nat
  deriving DecidableEq, Repr

/-- Modelled from the spec: the missing constructor of `Authentication`: no
session, no counter. -/
def State.init : State := { now := 0, sessions := [], counters := [], entropy := 0 }

/-! ### Rate Limiter (section 4.2) -/

/-- Modelled from the spec: lookup in the missing Rate Limiter table, one entry
per distinct identity. -/
def counterOf (st : State) (identity : CppString) : Option RateCounter :=
  st.counters.find? fun c => c.identity = identity

/-- Modelled from the spec: whether the window of a counter of the missing Rate
Limiter is still running, that is, the cool-down has not elapsed on the
Clock. -/
def inWindow (cfg : Config) (st : State) (c : RateCounter) : Bool :=
  decide (st.now < c.windowStart + cfg.cooldown)

/-- Modelled from the spec: `Admit` of the missing Rate Limiter: false after
`MAX_FAILED_ATTEMPTS` consecutive failures within the current window, until
the counter is reset or the cool-down elapses. -/
def Admit (cfg : Config) (st : State) (identity : CppString) : Bool :=
  match counterOf st identity with
  | none => true
  | some c => !(decide (MAX_FAILED_ATTEMPTS ≤ c.failures) && inWindow cfg st c)

/-- Modelled from the spec: writing the entry of one identity in the missing
Rate Limiter table (one entry per identity). -/
def putCounter (st : State) (c : RateCounter) : State :=
  { st with counters := c :: st.counters.filter fun x => x.identity ≠ c.identity }

/-- Modelled from the spec: `RecordFailure` of the missing Rate Limiter: the
entry is created on the first failure; a failure within the running window
adds one (the window start moves to now under the sliding policy); a failure
after a reset or after the window starts a new window with one failure. -/
def RecordFailure (cfg : Config) (st : State) (identity : CppString) : State :=
  match counterOf st identity with
  | none => putCounter st { identity := identity, failures := 1, windowStart := st.now }
  | some c =>
    if inWindow cfg st c && decide (c.failures ≠ 0) then
      putCounter st { identity := identity, failures := c.failures + 1,
                      windowStart := if cfg.slidingWindow then st.now else c.windowStart }
    else
      putCounter st { identity := identity, failures := 1, windowStart := st.now }

/-- Modelled from the spec: `RecordSuccess` of the missing Rate Limiter: the
counter resets to zero. -/
def RecordSuccess (st : State) (identity : CppString) : State :=
  match counterOf st identity with
  | none => st
  | some c =>
    putCounter st { identity := identity, failures := 0, windowStart := c.windowStart }

/-! ### Session Store (section 4.3) -/

/-- Modelled from the spec: `Issue` of the missing Session Store: a new token,
a Session with issue time now and expiry now + TTL. -/
def Issue (cfg : Config) (st : State) (identity : CppString) : CppString × State :=
  let token := cfg.generate st.entropy
  (token,
    { st with
      sessions := { token := token, identity := identity, issued := st.now,
                    expiry := st.now + TOKEN_TTL } :: st.sessions,
      entropy := st.entropy + 1 })

/-- Modelled from the spec: `Revoke` of the missing Session Store: removes the
session of the token if present. -/
def Revoke (st : State) (token : CppString) : State :=
  { st with sessions := st.sessions.filter fun s => s.token ≠ token }

/-- Modelled from the spec: `Validate` of the missing Session Store: not ok when
the token is malformed (checked before the lookup), unknown, or its session's
expiry is at or before now; an expired session is purged on lookup. -/
def Validate (cfg : Config) (st : State) (token : CppString) :
    (CppString × Bool) × State :=
  if cfg.wellFormed token = false then (([], false), st)
  else
    match st.sessions.find? fun s => s.token = token with
    | none => (([], false), st)
    | some s =>
      if s.expiry ≤ st.now then (([], false), Revoke st token)
      else ((s.identity, true), st)

/-! ### Authentication Service (section 4.4) -/

/-- Modelled from the spec: the failed `AuthResult` of the missing service:
no identity, empty token, the error code. -/
def AuthResult.failure (e : AuthError) : AuthResult :=
  { success := false, userId := [], token := [], errorCode := some e }

/-- Modelled from the spec: `Authenticate` of the missing service, the five
transitions of section 4.4 in priority order. -/
def Authenticate (cfg : Config) (st : State) (username password : CppString) :
    AuthResult × State :=
  if username = [] then (AuthResult.failure .EMPTY_USERNAME, st)
  else if password = [] then (AuthResult.failure .EMPTY_PASSWORD, st)
  else if Admit cfg st username = false then (AuthResult.failure .RATE_LIMITED, st)
  else if cfg.verify username password = false then
    (AuthResult.failure .INVALID_CREDENTIALS, RecordFailure cfg st username)
  else
    let issued := Issue cfg (RecordSuccess st username) username
    ({ success := true, userId := username, token := issued.1, errorCode := none },
      issued.2)

/-- Modelled from the spec: `ValidateToken` of the missing service: delegates
to `Validate` and discards the identity. -/
def ValidateToken (cfg : Config) (st : State) (token : CppString) : Bool × State :=
  ((Validate cfg st token).1.2, (Validate cfg st token).2)

/-- Modelled from the spec: `Logout` of the missing service: delegates to
`Revoke`. -/
def Logout (st : State) (token : CppString) : State := Revoke st token

/-- Modelled from the spec: `AdvanceTime` of the missing service: advances the
Clock by the seconds given. -/
def AdvanceTime (st : State) (seconds : Nat) : State :=
  { st with now := st.now + seconds }

/-- Modelled from the spec: a call of the caller-facing API of the missing
service (section 6), with the test control `AdvanceTime`. -/
inductive Call where
  | authenticate (username password : CppString)
  | validateToken (token : CppString)
  | logout (token : CppString)
  | advanceTime (seconds : Nat)
  deriving DecidableEq, Repr

/-- Modelled from the spec: the state of the missing service after one
call. -/
def step (cfg : Config) (st : State) : Call → State
  | .authenticate u p => (Authenticate cfg st u p).2
  | .validateToken t => (ValidateToken cfg st t).2
  | .logout t => Logout st t
  | .advanceTime n => AdvanceTime st n

/-- Modelled from the spec: the state of the missing service after a sequence
of calls. -/
def run (cfg : Config) (st : State) (calls : List Call) : State :=
  calls.foldl (step cfg) st

/-- Modelled from the spec: consecutive `Authenticate` calls of the missing
service for one identity, one per password: the results and the last
state. -/
def attempts (cfg : Config) (username : CppString) :
    State → List CppString → List AuthResult × State
  | st, [] => ([], st)
  | st, p :: ps =>
    let r := Authenticate cfg st username p
    let rest := attempts cfg username r.2 ps
    (r.1 :: rest.1, rest.2)

/-- Modelled from the spec: `Authenticate` calls of the missing service with
the same credentials, one per caller, taken one at a time in the order of a
schedule (the list of the callers), as calls that are atomic with respect to
each other (section 5) are; the result pairs each caller with what its call
returned. -/
def runSchedule (cfg : Config) (username password : CppString) :
    State → List Nat → List (Nat × AuthResult) × State
  | st, [] => ([], st)
  | st, caller :: rest =>
    let r := Authenticate cfg st username password
    let more := runSchedule cfg username password r.2 rest
    ((caller, r.1) :: more.1, more.2)

/-- The failures that count against an identity now: those of its counter
while its window is running, none otherwise (`Admit` refuses from
`MAX_FAILED_ATTEMPTS` on). -/
def streak (cfg : Config) (st : State) (identity : CppString) : Nat :=
  match counterOf st identity with
  | none => 0
  | some c => if inWindow cfg st c then c.failures else 0

/-- The token format of `testConfig`: `tok-` and then the entropy in unary. -/
def testGenerate (n : Nat) : CppString := lit "tok-" ++ List.replicate n (chr 'x')

/-- The format check of `testConfig`. -/
def testWellFormed (t : CppString) : Bool :=
  decide (t.take 4 = lit "tok-") && (t.drop 4).all fun c => decide (c = chr 'x')

/-- The backing store of `testConfig`: the valid credentials of the tests. -/
def testVerify (username password : CppString) : Bool :=
  decide (username = lit "testuser") && decide (password = lit "SecurePass123!")

/-- A configuration to evaluate the model on: the credentials of the tests, a
fixed window of 300 seconds. -/
def testConfig : Config :=
  { verify := testVerify
    cooldown := 300
    slidingWindow := false
    generate := testGenerate
    wellFormed := testWellFormed
    cooldown_pos := by decide
    generate_wellFormed := fun n => by
      have h4 : (lit "tok-").length = 4 := rfl
      simp [testWellFormed, testGenerate, List.take_append_eq_append_take,
        List.drop_append_eq_append_drop, h4]
    generate_ne_nil := fun n h => by simp [testGenerate, lit] at h
    generate_inj := fun m n h => by
      have := congrArg List.length h
      simpa [testGenerate] using this }

end security

namespace StringUtils

/-! ## Lemmas: `size_t` arithmetic and `substr` -/

theorem sizeSub_of_le {a b : Nat} (hb : b ≤ a) (ha : a < SIZE_MOD) :
    sizeSub a b = a - b := by
  unfold sizeSub
  have h1 : a + SIZE_MOD - b = (a - b) + SIZE_MOD := by omega
  rw [h1, Nat.add_mod_right]
  exact Nat.mod_eq_of_lt (by omega)

theorem sizeAdd_of_lt {a b : Nat} (h : a + b < SIZE_MOD) : sizeAdd a b = a + b := by
  unfold sizeAdd
  exact Nat.mod_eq_of_lt h

theorem substr_of_le {s : CppString} {pos : Nat} (count : Nat) (h : pos ≤ s.length) :
    substr s pos count = .ret ((s.drop pos).take count) := by
  unfold substr
  rw [if_neg (by omega)]

theorem substr_npos {s : CppString} {pos : Nat} (h : pos ≤ s.length)
    (hs : s.length < SIZE_MOD) : substr s pos npos = .ret (s.drop pos) := by
  rw [substr_of_le npos h]
  congr 1
  apply List.take_of_length_le
  simp only [List.length_drop, npos]
  omega

/-! ## Lemmas: `startsWith` and `endsWith` -/

theorem startsWith_eq (str pfx : CppString) :
    ∃ b, startsWith str pfx = .ret b ∧ (b = true ↔ ∃ t, str = pfx ++ t) := by
  unfold startsWith
  by_cases hlen : pfx.length > str.length
  · rw [if_pos hlen]
    refine ⟨false, rfl, ?_⟩
    simp only [Bool.false_eq_true, false_iff]
    rintro ⟨t, rfl⟩
    simp at hlen
  · rw [if_neg hlen, substr_of_le _ (Nat.zero_le _)]
    simp only [Outcome.bind, List.drop_zero]
    refine ⟨_, rfl, ?_⟩
    rw [decide_eq_true_iff]
    constructor
    · intro h
      exact ⟨str.drop pfx.length, by
        conv_lhs => rw [← List.take_append_drop pfx.length str]
        rw [h]⟩
    · rintro ⟨t, rfl⟩
      simp

theorem endsWith_eq (str suffix : CppString) (hs : str.length < SIZE_MOD) :
    ∃ b, endsWith str suffix = .ret b ∧ (b = true ↔ ∃ t, str = t ++ suffix) := by
  unfold endsWith
  by_cases hlen : suffix.length > str.length
  · rw [if_pos hlen]
    refine ⟨false, rfl, ?_⟩
    simp only [Bool.false_eq_true, false_iff]
    rintro ⟨t, rfl⟩
    simp at hlen
  · have hle : suffix.length ≤ str.length := by omega
    rw [if_neg hlen, sizeSub_of_le hle hs, substr_npos (by omega) hs]
    simp only [Outcome.bind]
    refine ⟨_, rfl, ?_⟩
    rw [decide_eq_true_iff]
    constructor
    · intro h
      exact ⟨str.take (str.length - suffix.length), by
        conv_lhs => rw [← List.take_append_drop (str.length - suffix.length) str]
        rw [h]⟩
    · rintro ⟨t, rfl⟩
      simp

theorem ret_true_iff {o : Outcome Bool} {P : Prop}
    (h : ∃ b, o = .ret b ∧ (b = true ↔ P)) :
    (o = .ret true ↔ P) ∧ (o = .ret false ↔ ¬ P) := by
  obtain ⟨b, rfl, hb⟩ := h
  cases b <;> simp_all

set_option maxRecDepth 100000 in
theorem toupper_eq_counterpart :
    ∀ c : CChar, toupper c = if chr 'a' ≤ c ∧ c ≤ chr 'z' then upperCounterpart c else c := by
  decide

set_option maxRecDepth 100000 in
theorem tolower_eq_counterpart :
    ∀ c : CChar, tolower c = if chr 'A' ≤ c ∧ c ≤ chr 'Z' then lowerCounterpart c else c := by
  decide

/-! ## Lemmas: `find` and the reference tokens -/

theorem findAux_of_not_mem {ch : CChar} :
    ∀ (l : CppString) (i : Nat), ch ∉ l → findAux ch l i = none
  | [], _, _ => rfl
  | c :: cs, i, h => by
    have hc : c ≠ ch := fun e => h (by simp [e])
    have hcs : ch ∉ cs := fun e => h (List.mem_cons_of_mem _ e)
    simp only [findAux, if_neg hc]
    exact findAux_of_not_mem cs (i + 1) hcs

theorem findAux_append {ch : CChar} (r : CppString) :
    ∀ (t : CppString) (i : Nat), ch ∉ t →
      findAux ch (t ++ ch :: r) i = some (i + t.length)
  | [], _, _ => by simp [findAux]
  | c :: cs, i, h => by
    have hc : c ≠ ch := fun e => h (by simp [e])
    have hcs : ch ∉ cs := fun e => h (List.mem_cons_of_mem _ e)
    have ih := findAux_append r cs (i + 1) hcs
    rw [List.cons_append]
    unfold findAux
    rw [if_neg hc, ih, List.length_cons]
    congr 1
    omega

theorem splitRef_ne_nil (d : CChar) : ∀ l : CppString, splitRef d l ≠ []
  | [] => by simp [splitRef]
  | c :: cs => by
    unfold splitRef
    split
    · simp
    · split <;> simp

theorem splitRef_of_not_mem {d : CChar} :
    ∀ l : CppString, d ∉ l → splitRef d l = [l]
  | [], _ => rfl
  | c :: cs, h => by
    have hc : c ≠ d := fun e => h (by simp [e])
    have hcs : d ∉ cs := fun e => h (List.mem_cons_of_mem _ e)
    simp [splitRef, if_neg hc, splitRef_of_not_mem cs hcs]

theorem splitRef_append {d : CChar} (r : CppString) :
    ∀ t : CppString, d ∉ t → splitRef d (t ++ d :: r) = t :: splitRef d r
  | [], _ => by simp [splitRef]
  | c :: cs, h => by
    have hc : c ≠ d := fun e => h (by simp [e])
    have hcs : d ∉ cs := fun e => h (List.mem_cons_of_mem _ e)
    simp [splitRef, if_neg hc, splitRef_append r cs hcs]

theorem length_splitRef (d : CChar) :
    ∀ l : CppString, (splitRef d l).length = l.count d + 1
  | [] => rfl
  | c :: cs => by
    have ih := length_splitRef d cs
    unfold splitRef
    by_cases hc : c = d
    · subst hc
      simp [ih]
    · rw [if_neg hc, List.count_cons_of_ne (Ne.symm hc)]
      split
      · next t ts heq => rw [heq] at ih; simpa using ih
      · next heq => exact absurd heq (splitRef_ne_nil d cs)

theorem not_mem_of_mem_splitRef (d : CChar) :
    ∀ (l : CppString) (t : CppString), t ∈ splitRef d l → d ∉ t
  | [], t, h => by
    simp [splitRef] at h
    simp [h]
  | c :: cs, t, h => by
    have ih := not_mem_of_mem_splitRef d cs
    unfold splitRef at h
    by_cases hc : c = d
    · rw [if_pos hc] at h
      rcases List.mem_cons.1 h with rfl | h
      · simp
      · exact ih t h
    · rw [if_neg hc] at h
      split at h
      · next u us heq =>
        rw [heq] at ih
        rcases List.mem_cons.1 h with rfl | h
        · intro hm
          rcases List.mem_cons.1 hm with e | hm
          · exact hc e.symm
          · exact ih u (List.mem_cons_self _ _) hm
        · exact ih t (List.mem_cons_of_mem _ h)
      · next heq => exact absurd heq (splitRef_ne_nil d cs)

theorem joinWith_cons (d : CChar) (t : CppString) {ts : List CppString}
    (h : ts ≠ []) : joinWith d (t :: ts) = t ++ d :: joinWith d ts := by
  cases ts with
  | nil => exact absurd rfl h
  | cons u us => rfl

theorem joinWith_eq_intercalate (d : CChar) :
    ∀ ts : List CppString, joinWith d ts = List.intercalate [d] ts
  | [] => rfl
  | [t] => by simp [joinWith, List.intercalate]
  | t :: u :: us => by
    have ih := joinWith_eq_intercalate d (u :: us)
    simp only [joinWith, ih, List.intercalate, List.intersperse, List.flatten,
      List.append_assoc, List.singleton_append]

theorem joinWith_splitRef (d : CChar) :
    ∀ l : CppString, joinWith d (splitRef d l) = l
  | [] => rfl
  | c :: cs => by
    have ih := joinWith_splitRef d cs
    unfold splitRef
    by_cases hc : c = d
    · rw [if_pos hc, joinWith_cons d [] (splitRef_ne_nil d cs), ih, hc]
      rfl
    · rw [if_neg hc]
      split
      · next t ts heq =>
        rw [heq] at ih
        cases ts with
        | nil => simpa [joinWith] using ih
        | cons u us =>
          simp only [joinWith] at ih ⊢
          rw [List.cons_append, ih]
      · next heq => exact absurd heq (splitRef_ne_nil d cs)

/-! ## Lemmas: the loop of `split` -/

theorem find_of_not_mem {pre rest : CppString} {d : CChar} (h : d ∉ rest) :
    find (pre ++ rest) d pre.length = npos := by
  unfold find
  rw [List.drop_left, findAux_of_not_mem rest _ h]
  rfl

theorem find_append {pre t r : CppString} {d : CChar} (h : d ∉ t) :
    find (pre ++ (t ++ d :: r)) d pre.length = pre.length + t.length := by
  unfold find
  rw [List.drop_left, findAux_append r t _ h]
  rfl

/-- The loop invariant of `split`: with `start` at the end of `pre`, `end_`
the next delimiter and fuel for what is left, the loop returns the tokens it
has plus those of the rest. -/
theorem splitLoop_eq (d : CChar) :
    ∀ (fuel : Nat) (pre rest : CppString) (tokens : List CppString),
      (pre ++ rest).length < SIZE_MOD → rest.length < fuel →
      splitLoop (pre ++ rest) d fuel
        { tokens := tokens, start := pre.length,
          end_ := find (pre ++ rest) d pre.length }
        = .ret (tokens ++ splitRef d rest)
  | 0, _, _, _, _, hf => absurd hf (Nat.not_lt_zero _)
  | fuel + 1, pre, rest, tokens, hs, hf => by
    by_cases hd : d ∈ rest
    · obtain ⟨t, r, rfl, ht⟩ := List.eq_append_cons_of_mem hd
      simp only [List.length_append, List.length_cons] at hs hf
      have hend : pre.length + t.length ≠ npos := by
        simp only [npos]; omega
      unfold splitLoop
      simp only [find_append ht]
      rw [if_pos hend]
      unfold splitStep
      simp only
      rw [sizeSub_of_le (by omega) (by omega), sizeAdd_of_lt (by omega),
        substr_of_le _ (by simp)]
      have htake : List.take (pre.length + t.length - pre.length)
          (List.drop pre.length (pre ++ (t ++ d :: r))) = t := by
        rw [List.drop_left, Nat.add_sub_cancel_left, List.take_left]
      simp only [Outcome.bind, htake]
      have key := splitLoop_eq d fuel (pre ++ (t ++ [d])) r (tokens ++ [t])
        (by simp only [List.length_append, List.length_cons, List.length_nil]; omega)
        (by omega)
      have e1 : (pre ++ (t ++ [d])) ++ r = pre ++ (t ++ d :: r) := by simp
      have e2 : (pre ++ (t ++ [d])).length = pre.length + t.length + 1 := by
        simp only [List.length_append, List.length_cons, List.length_nil]; omega
      rw [e1, e2] at key
      rw [key, splitRef_append r t ht]
      simp
    · unfold splitLoop
      simp only [find_of_not_mem hd]
      rw [if_neg (by simp), substr_npos (by simp) hs, List.drop_left,
        splitRef_of_not_mem rest hd]
      rfl

/-- The characterisation of `split`: it returns, and returns the reference
tokens. -/
theorem split_eq (str : CppString) (d : CChar) (hs : str.length < SIZE_MOD) :
    split str d = .ret (splitRef d str) := by
  have h := splitLoop_eq d (str.length + 1) [] str [] (by simpa using hs)
    (Nat.lt_succ_self _)
  simpa [split] using h

/-! ## Lemmas: `find_first_not_of`, `find_last_not_of` and `trim` -/

theorem firstNotOf_eq_none_iff (set : CppString) :
    ∀ l : CppString, firstNotOf set l = none ↔ ∀ c ∈ l, c ∈ set
  | [] => by simp [firstNotOf]
  | c :: cs => by
    have ih := firstNotOf_eq_none_iff set cs
    unfold firstNotOf
    by_cases hc : c ∈ set
    · rw [if_pos hc, Option.map_eq_none', ih]
      simp [hc]
    · rw [if_neg hc]
      simp [hc]

theorem lastNotOf_eq_none_iff (set : CppString) :
    ∀ l : CppString, lastNotOf set l = none ↔ ∀ c ∈ l, c ∈ set
  | [] => by simp [lastNotOf]
  | c :: cs => by
    have ih := lastNotOf_eq_none_iff set cs
    unfold lastNotOf
    cases hl : lastNotOf set cs with
    | none =>
      have hall := ih.1 hl
      by_cases hc : c ∈ set
      · simpa [hc] using hall
      · simp [hc]
    | some j =>
      simp only [false_iff, reduceCtorEq]
      intro hall
      have : lastNotOf set cs = none :=
        ih.2 fun x hx => hall x (List.mem_cons_of_mem _ hx)
      rw [hl] at this
      cases this

theorem firstNotOf_some (set : CppString) :
    ∀ (l : CppString) (i : Nat), firstNotOf set l = some i →
      (∀ c ∈ l.take i, c ∈ set) ∧ ∃ c, l[i]? = some c ∧ c ∉ set
  | [], _, h => by simp [firstNotOf] at h
  | c :: cs, i, h => by
    unfold firstNotOf at h
    by_cases hc : c ∈ set
    · rw [if_pos hc] at h
      obtain ⟨k, hk, rfl⟩ := Option.map_eq_some'.1 h
      obtain ⟨h1, x, h2, h3⟩ := firstNotOf_some set cs k hk
      refine ⟨?_, x, by simpa using h2, h3⟩
      intro y hy
      rcases List.mem_cons.1 (by simpa using hy) with rfl | hy
      · exact hc
      · exact h1 y hy
    · rw [if_neg hc] at h
      cases h
      exact ⟨by simp, c, by simp, hc⟩

theorem lastNotOf_some (set : CppString) :
    ∀ (l : CppString) (j : Nat), lastNotOf set l = some j →
      (∀ c ∈ l.drop (j + 1), c ∈ set) ∧ ∃ c, l[j]? = some c ∧ c ∉ set
  | [], _, h => by simp [lastNotOf] at h
  | c :: cs, j, h => by
    unfold lastNotOf at h
    cases hl : lastNotOf set cs with
    | none =>
      rw [hl] at h
      by_cases hc : c ∈ set
      · simp [hc] at h
      · simp only [hc, if_false, Option.some.injEq] at h
        subst h
        exact ⟨by simpa using (lastNotOf_eq_none_iff set cs).1 hl, c, by simp, hc⟩
    | some k =>
      rw [hl] at h
      simp only [Option.some.injEq] at h
      subst h
      obtain ⟨h1, x, h2, h3⟩ := lastNotOf_some set cs k hl
      exact ⟨by simpa using h1, x, by simpa using h2, h3⟩

/-- The characterisation of `trim`: either the string is all whitespace and
the result is empty, or the result `m` is what is left of `l ++ m ++ r` once
the whitespace `l` and `r` is gone, `m` starting and ending with a character
that is not whitespace. -/
theorem trim_spec (s : CppString) (hs : s.length < SIZE_MOD) :
    ((∀ c ∈ s, c ∈ WHITESPACE) ∧ trim s = .ret []) ∨
    (∃ l m r a b, s = l ++ m ++ r ∧ (∀ c ∈ l, c ∈ WHITESPACE) ∧
      (∀ c ∈ r, c ∈ WHITESPACE) ∧ m.head? = some a ∧ a ∉ WHITESPACE ∧
      m.getLast? = some b ∧ b ∉ WHITESPACE ∧ trim s = .ret m) := by
  cases hf : firstNotOf WHITESPACE s with
  | none =>
    left
    refine ⟨(firstNotOf_eq_none_iff _ s).1 hf, ?_⟩
    simp [trim, find_first_not_of, hf]
  | some i =>
    right
    obtain ⟨hl, a, hia, ha⟩ := firstNotOf_some _ s i hf
    have hi : i < s.length := (List.getElem?_eq_some.1 hia).1
    cases hlast : lastNotOf WHITESPACE s with
    | none =>
      exact absurd ((lastNotOf_eq_none_iff _ s).1 hlast a (List.getElem?_mem hia)) ha
    | some j =>
      obtain ⟨hr, b, hjb, hb⟩ := lastNotOf_some _ s j hlast
      have hj : j < s.length := (List.getElem?_eq_some.1 hjb).1
      have hij : i ≤ j := by
        by_contra hlt
        have hlt : j < i := Nat.lt_of_not_le hlt
        have : (s.take i)[j]? = some b := by
          rw [List.getElem?_take_of_lt hlt]; exact hjb
        exact hb (hl b (List.getElem?_mem this))
      have hinpos : i ≠ npos := by simp only [npos]; omega
      have htrim : trim s = .ret ((s.drop i).take (j - i + 1)) := by
        simp only [trim, find_first_not_of, find_last_not_of, hf, hlast,
          Option.getD_some, if_neg hinpos]
        rw [sizeSub_of_le hij (by omega), sizeAdd_of_lt (by omega),
          substr_of_le _ (by omega)]
      refine ⟨s.take i, (s.drop i).take (j - i + 1), s.drop (j + 1), a, b,
        ?_, hl, hr, ?_, ha, ?_, hb, htrim⟩
      · have e : s.drop (j + 1) = (s.drop i).drop (j - i + 1) := by
          rw [List.drop_drop]; congr 1; omega
        rw [e, List.append_assoc, List.take_append_drop, List.take_append_drop]
      · rw [List.head?_take, if_neg (by omega), List.head?_drop]
        exact hia
      · rw [List.getLast?_eq_getElem?, List.length_take, List.length_drop,
          Nat.min_eq_left (by omega), Nat.add_sub_cancel,
          List.getElem?_take_of_lt (by omega), List.getElem?_drop]
        rw [show i + (j - i) = j by omega]
        exact hjb

set_option maxRecDepth 100000 in
theorem mem_WHITESPACE_iff (c : CChar) : c ∈ WHITESPACE ↔ IsTrimChar c := by
  revert c
  decide

theorem splitRef_cons_self (d : CChar) (cs : CppString) :
    splitRef d (d :: cs) = [] :: splitRef d cs := by
  simp [splitRef]

theorem splitRef_cons_of_ne {d c : CChar} {cs t : CppString} {ts : List CppString}
    (hc : c ≠ d) (h : splitRef d cs = t :: ts) :
    splitRef d (c :: cs) = (c :: t) :: ts := by
  simp [splitRef, hc, h]

theorem splitRef_concat (d : CChar) (b : CppString) :
    ∀ a : CppString, splitRef d (a ++ d :: b) = splitRef d a ++ splitRef d b
  | [] => by rw [List.nil_append, splitRef_cons_self]; rfl
  | c :: cs => by
    have ih := splitRef_concat d b cs
    rw [List.cons_append]
    by_cases hc : c = d
    · subst hc
      rw [splitRef_cons_self, splitRef_cons_self, ih, List.cons_append]
    · obtain ⟨t, ts, heq⟩ := List.exists_cons_of_ne_nil (splitRef_ne_nil d cs)
      rw [heq, List.cons_append] at ih
      rw [splitRef_cons_of_ne hc ih, splitRef_cons_of_ne hc heq, List.cons_append]

/-! ## The expectations of `string_utils_test.cpp`, evaluated on the embedding -/

theorem test_toUpper_toLower :
    toUpper (lit "hello") = lit "HELLO" ∧ toUpper (lit "HELLO") = lit "HELLO" ∧
    toUpper (lit "HeLLo WoRLd") = lit "HELLO WORLD" ∧ toUpper (lit "") = lit "" ∧
    toUpper (lit "abc123") = lit "ABC123" ∧
    toLower (lit "HELLO") = lit "hello" ∧ toLower (lit "hello") = lit "hello" ∧
    toLower (lit "HeLLo WoRLd") = lit "hello world" ∧ toLower (lit "") = lit "" := by
  decide

theorem test_startsWith_endsWith :
    startsWith (lit "hello world") (lit "hello") = .ret true ∧
    startsWith (lit "hello world") (lit "world") = .ret false ∧
    startsWith (lit "hello") (lit "") = .ret true ∧
    startsWith (lit "hi") (lit "hello") = .ret false ∧
    startsWith (lit "hello") (lit "hello") = .ret true ∧
    endsWith (lit "hello world") (lit "world") = .ret true ∧
    endsWith (lit "hello world") (lit "hello") = .ret false ∧
    endsWith (lit "hello") (lit "") = .ret true ∧
    endsWith (lit "hi") (lit "hello") = .ret false ∧
    endsWith (lit "hello") (lit "hello") = .ret true := by
  decide

theorem test_split :
    split (lit "hello,world") (chr ',') = .ret [lit "hello", lit "world"] ∧
    split (lit "a,b,c,d") (chr ',') = .ret [lit "a", lit "b", lit "c", lit "d"] ∧
    split (lit "hello") (chr ',') = .ret [lit "hello"] ∧
    split (lit "") (chr ',') = .ret [lit ""] ∧
    split (lit "hello,world,") (chr ',') = .ret [lit "hello", lit "world", lit ""] := by
  decide

theorem test_trim :
    trim (lit "  hello") = .ret (lit "hello") ∧
    trim (lit "hello  ") = .ret (lit "hello") ∧
    trim (lit "  hello  ") = .ret (lit "hello") ∧
    trim (lit "   ") = .ret (lit "") ∧
    trim (lit "") = .ret (lit "") ∧
    trim (lit "\t\thello\t\t") = .ret (lit "hello") ∧
    trim (lit "\n\nhello\n\n") = .ret (lit "hello") ∧
    trim (lit "  hello world  ") = .ret (lit "hello world") := by
  decide

theorem test_counterparts :
    upperCounterpart (chr 'a') = chr 'A' ∧ upperCounterpart (chr 'z') = chr 'Z' ∧
    upperCounterpart (chr '1') = chr '1' ∧
    lowerCounterpart (chr 'A') = chr 'a' ∧ lowerCounterpart (chr 'Z') = chr 'z' ∧
    lowerCounterpart (chr ' ') = chr ' ' := by
  decide

/-! ## The claims -/

/-- C1: for every string `s` and delimiter `d`, `split s d` returns a
non-empty list with exactly (occurrences of `d` in `s`) + 1 tokens; a string
without `d` gives the one-element list `[s]`, and a string ending in `d`
gives an empty last token. -/
theorem split_length (s : CppString) (d : CChar) (hs : s.length < SIZE_MOD) :
    ∃ tokens, split s d = .ret tokens ∧ tokens ≠ [] ∧
      tokens.length = s.count d + 1 ∧
      (d ∉ s → tokens = [s]) ∧
      (s.getLast? = some d → tokens.getLast? = some []) := by
  refine ⟨splitRef d s, split_eq s d hs, splitRef_ne_nil d s,
    length_splitRef d s, splitRef_of_not_mem s, ?_⟩
  intro hlast
  have e : s.dropLast ++ [d] = s := List.dropLast_append_getLast? d hlast
  rw [← e, splitRef_concat]
  simp [splitRef]

/-- C1 at `"hello,world,"` and `"hello"` with delimiter `','`. -/
theorem split_length_witness :
    (lit "hello,world,").length < SIZE_MOD ∧
    (∃ tokens, split (lit "hello,world,") (chr ',') = .ret tokens ∧
      tokens ≠ [] ∧ tokens.length = 3 ∧ tokens.getLast? = some []) ∧
    (∃ tokens, split (lit "hello") (chr ',') = .ret tokens ∧
      tokens = [lit "hello"]) := by
  obtain ⟨t1, h1, h2, h3, _, h5⟩ :=
    split_length (lit "hello,world,") (chr ',') (by decide)
  obtain ⟨t2, k1, _, _, k4, _⟩ := split_length (lit "hello") (chr ',') (by decide)
  exact ⟨by decide, ⟨t1, h1, h2, h3, h5 (by decide)⟩, ⟨t2, k1, k4 (by decide)⟩⟩

/-- C2: for every string `s` and delimiter `d`, no token of `split s d`
contains `d`, and the tokens joined in order with one `d` between consecutive
tokens are `s` again. -/
theorem split_join (s : CppString) (d : CChar) (hs : s.length < SIZE_MOD) :
    ∃ tokens, split s d = .ret tokens ∧ (∀ t ∈ tokens, d ∉ t) ∧
      joinWith d tokens = s ∧ List.intercalate [d] tokens = s :=
  ⟨splitRef d s, split_eq s d hs, not_mem_of_mem_splitRef d s,
    joinWith_splitRef d s, by rw [← joinWith_eq_intercalate, joinWith_splitRef]⟩

/-- C2 at `"a,,b,"` with delimiter `','`. -/
theorem split_join_witness :
    (lit "a,,b,").length < SIZE_MOD ∧
    ∃ tokens, split (lit "a,,b,") (chr ',') = .ret tokens ∧
      (∀ t ∈ tokens, chr ',' ∉ t) ∧ joinWith (chr ',') tokens = lit "a,,b," ∧
      List.intercalate [chr ','] tokens = lit "a,,b," :=
  ⟨by decide, split_join (lit "a,,b,") (chr ',') (by decide)⟩

/-- C3: for every string `s`, `trim s` removes characters from the two ends
only: `s = l ++ trim s ++ r` with `l` and `r` made only of space, `'\t'`,
`'\n'` and `'\r'`. -/
theorem trim_ends (s : CppString) (hs : s.length < SIZE_MOD) :
    ∃ m l r, trim s = .ret m ∧ OnlyTrimChars l ∧ OnlyTrimChars r ∧
      s = l ++ m ++ r := by
  rcases trim_spec s hs with ⟨hall, ht⟩ | ⟨l, m, r, _, _, hsplit, hl, hr, _, _, _, _, ht⟩
  · exact ⟨[], s, [], ht, fun c hc => (mem_WHITESPACE_iff c).1 (hall c hc),
      fun c hc => absurd hc (List.not_mem_nil c), by simp⟩
  · exact ⟨m, l, r, ht, fun c hc => (mem_WHITESPACE_iff c).1 (hl c hc),
      fun c hc => (mem_WHITESPACE_iff c).1 (hr c hc), hsplit⟩

/-- C3 at `"  hello world \t"`. -/
theorem trim_ends_witness :
    (lit "  hello world \t").length < SIZE_MOD ∧
    ∃ m l r, trim (lit "  hello world \t") = .ret m ∧ OnlyTrimChars l ∧
      OnlyTrimChars r ∧ lit "  hello world \t" = l ++ m ++ r :=
  ⟨by decide, trim_ends (lit "  hello world \t") (by decide)⟩

/-- C4: for every string `s`, `trim s` is empty, or its first and its last
character are both outside the set of space, `'\t'`, `'\n'`, `'\r'`. -/
theorem trim_first_last (s : CppString) (hs : s.length < SIZE_MOD) :
    ∃ m, trim s = .ret m ∧
      (m = [] ∨
        ((∃ a, m.head? = some a ∧ ¬ IsTrimChar a) ∧
          (∃ b, m.getLast? = some b ∧ ¬ IsTrimChar b))) := by
  rcases trim_spec s hs with ⟨_, ht⟩ | ⟨l, m, r, a, b, _, _, _, hma, ha, hmb, hb, ht⟩
  · exact ⟨[], ht, Or.inl rfl⟩
  · exact ⟨m, ht, Or.inr ⟨⟨a, hma, fun h => ha ((mem_WHITESPACE_iff a).2 h)⟩,
      ⟨b, hmb, fun h => hb ((mem_WHITESPACE_iff b).2 h)⟩⟩⟩

/-- C4 at `"\n\nhello world\n\n"`. -/
theorem trim_first_last_witness :
    (lit "\n\nhello world\n\n").length < SIZE_MOD ∧
    ∃ m, trim (lit "\n\nhello world\n\n") = .ret m ∧
      (m = [] ∨
        ((∃ a, m.head? = some a ∧ ¬ IsTrimChar a) ∧
          (∃ b, m.getLast? = some b ∧ ¬ IsTrimChar b))) :=
  ⟨by decide, trim_first_last (lit "\n\nhello world\n\n") (by decide)⟩

/-- C5: for every string `s`, `trim s` is the empty string if and only if
every character of `s` is one of space, `'\t'`, `'\n'`, `'\r'` (which holds
for the empty string). -/
theorem trim_empty_iff (s : CppString) (hs : s.length < SIZE_MOD) :
    ∃ m, trim s = .ret m ∧ (m = [] ↔ OnlyTrimChars s) := by
  rcases trim_spec s hs with ⟨hall, ht⟩ | ⟨l, m, r, a, b, hsplit, _, _, hma, ha, _, _, ht⟩
  · exact ⟨[], ht, iff_of_true rfl fun c hc => (mem_WHITESPACE_iff c).1 (hall c hc)⟩
  · refine ⟨m, ht, iff_of_false ?_ ?_⟩
    · rintro rfl
      simp at hma
    · intro hall
      have ham : a ∈ m := List.mem_of_mem_head? hma
      have has : a ∈ s := by
        rw [hsplit]
        exact List.mem_append_left _ (List.mem_append_right _ ham)
      exact ha ((mem_WHITESPACE_iff a).2 (hall a has))

set_option maxRecDepth 100000 in
/-- C5 at the all-whitespace `" \t\r\n "`, at `""` and at `" a "`. -/
theorem trim_empty_iff_witness :
    ((lit " \t\r\n ").length < SIZE_MOD ∧ OnlyTrimChars (lit " \t\r\n ") ∧
      trim (lit " \t\r\n ") = .ret []) ∧
    ((lit "").length < SIZE_MOD ∧ OnlyTrimChars (lit "") ∧ trim (lit "") = .ret []) ∧
    ((lit " a ").length < SIZE_MOD ∧ ¬ OnlyTrimChars (lit " a ") ∧
      ∃ m, trim (lit " a ") = .ret m ∧ m ≠ []) := by
  obtain ⟨m1, h1, e1⟩ := trim_empty_iff (lit " \t\r\n ") (by decide)
  obtain ⟨m2, h2, e2⟩ := trim_empty_iff (lit "") (by decide)
  obtain ⟨m3, h3, e3⟩ := trim_empty_iff (lit " a ") (by decide)
  have a1 : OnlyTrimChars (lit " \t\r\n ") := by decide
  have a2 : OnlyTrimChars (lit "") := by decide
  have a3 : ¬ OnlyTrimChars (lit " a ") := by decide
  refine ⟨⟨by decide, a1, ?_⟩, ⟨by decide, a2, ?_⟩, ⟨by decide, a3, m3, h3, ?_⟩⟩
  · rw [h1, e1.2 a1]
  · rw [h2, e2.2 a2]
  · exact fun h => a3 (e3.1 h)

/-- C6: `startsWith str pfx` returns true if and only if `str = pfx ++ t` for
some `t`, and false otherwise; it is true for the empty string as second
argument and for `pfx = str`. -/
theorem startsWith_iff (str pfx : CppString) :
    (startsWith str pfx = .ret true ↔ ∃ t, str = pfx ++ t) ∧
    (startsWith str pfx = .ret false ↔ ¬ ∃ t, str = pfx ++ t) ∧
    startsWith str [] = .ret true ∧ startsWith str str = .ret true := by
  have h := fun p => ret_true_iff (startsWith_eq str p)
  exact ⟨(h pfx).1, (h pfx).2, (h []).1.2 ⟨str, rfl⟩, (h str).1.2 ⟨[], by simp⟩⟩

/-- C7: `endsWith str suffix` returns true if and only if
`str = t ++ suffix` for some `t`, and false otherwise; it is true for the
empty suffix and for `suffix = str`. -/
theorem endsWith_iff (str suffix : CppString) (hs : str.length < SIZE_MOD) :
    (endsWith str suffix = .ret true ↔ ∃ t, str = t ++ suffix) ∧
    (endsWith str suffix = .ret false ↔ ¬ ∃ t, str = t ++ suffix) ∧
    endsWith str [] = .ret true ∧ endsWith str str = .ret true := by
  have h := fun p => ret_true_iff (endsWith_eq str p hs)
  exact ⟨(h suffix).1, (h suffix).2, (h []).1.2 ⟨str, by simp⟩, (h str).1.2 ⟨[], rfl⟩⟩

/-- C7 at `"hello world"` with the suffix `"world"`. -/
theorem endsWith_iff_witness :
    (lit "hello world").length < SIZE_MOD ∧
    endsWith (lit "hello world") (lit "world") = .ret true ∧
    endsWith (lit "hello world") [] = .ret true ∧
    endsWith (lit "hello world") (lit "hello world") = .ret true := by
  obtain ⟨h1, _, h3, h4⟩ := endsWith_iff (lit "hello world") (lit "world") (by decide)
  exact ⟨by decide, h1.2 ⟨lit "hello ", by decide⟩, h3, h4⟩

/-- C8: when `x` is longer than `str`, `startsWith str x` and
`endsWith str x` both return false and do not throw; when `x` is not longer,
both return, the substring each takes lies inside `str`, and the start index
`str.length() - suffix.length()` of `endsWith` is the true difference (no
wrap-around) and is not past the end of `str`. -/
theorem startsWith_endsWith_in_range (str x : CppString) (hs : str.length < SIZE_MOD) :
    (x.length > str.length →
      startsWith str x = .ret false ∧ endsWith str x = .ret false) ∧
    (x.length ≤ str.length →
      (∃ b, startsWith str x = .ret b) ∧ (∃ b, endsWith str x = .ret b) ∧
      (∃ sub, substr str 0 x.length = .ret sub ∧ sub.length = x.length ∧
        0 + sub.length ≤ str.length) ∧
      ((sizeSub str.length x.length : Nat) : Int)
        = (str.length : Int) - (x.length : Int) ∧
      sizeSub str.length x.length ≤ str.length ∧
      (∃ sub, substr str (sizeSub str.length x.length) npos = .ret sub ∧
        sub.length = x.length ∧
        sizeSub str.length x.length + sub.length ≤ str.length)) := by
  constructor
  · intro hlen
    exact ⟨by rw [startsWith, if_pos hlen], by rw [endsWith, if_pos hlen]⟩
  · intro hle
    obtain ⟨b1, hb1, _⟩ := startsWith_eq str x
    obtain ⟨b2, hb2, _⟩ := endsWith_eq str x hs
    have hsub : sizeSub str.length x.length = str.length - x.length :=
      sizeSub_of_le hle hs
    refine ⟨⟨b1, hb1⟩, ⟨b2, hb2⟩, ⟨_, substr_of_le _ (Nat.zero_le _), ?_, ?_⟩,
      ?_, ?_, ⟨_, substr_npos (by rw [hsub]; omega) hs, ?_, ?_⟩⟩
    · simp only [List.drop_zero, List.length_take]; omega
    · simp only [List.drop_zero, List.length_take]; omega
    · rw [hsub]; omega
    · rw [hsub]; omega
    · rw [hsub, List.length_drop]; omega
    · rw [hsub, List.length_drop]; omega

/-- C8 at `str = "hi"`, `x = "hello"` (longer) and at `str = "hello"`,
`x = "lo"` (not longer). -/
theorem startsWith_endsWith_in_range_witness :
    ((lit "hi").length < SIZE_MOD ∧ (lit "hello").length > (lit "hi").length ∧
      startsWith (lit "hi") (lit "hello") = .ret false ∧
      endsWith (lit "hi") (lit "hello") = .ret false) ∧
    ((lit "hello").length < SIZE_MOD ∧ (lit "lo").length ≤ (lit "hello").length ∧
      sizeSub (lit "hello").length (lit "lo").length ≤ (lit "hello").length ∧
      ∃ sub, substr (lit "hello") (sizeSub (lit "hello").length (lit "lo").length) npos
          = .ret sub ∧ sub.length = (lit "lo").length) := by
  obtain ⟨h1, h2⟩ :=
    (startsWith_endsWith_in_range (lit "hi") (lit "hello") (by decide)).1 (by decide)
  obtain ⟨_, _, _, _, k5, sub, k6, k7, _⟩ :=
    (startsWith_endsWith_in_range (lit "hello") (lit "lo") (by decide)).2 (by decide)
  exact ⟨⟨by decide, by decide, h1, h2⟩, ⟨by decide, by decide, k5, sub, k6, k7⟩⟩

/-- C9: `toUpper s` has the length of `s`, and at every position it holds the
upper-case counterpart of the character of `s` when that character is in
`'a'..'z'`, and the character of `s` itself otherwise. -/
theorem toUpper_spec (s : CppString) :
    (toUpper s).length = s.length ∧
    ∀ i : Nat, (toUpper s)[i]? = (s[i]?).map fun c =>
      if chr 'a' ≤ c ∧ c ≤ chr 'z' then upperCounterpart c else c := by
  refine ⟨by simp [toUpper], fun i => ?_⟩
  rw [toUpper, List.getElem?_map]
  congr 1
  funext c
  exact toupper_eq_counterpart c

/-- C10: `toLower s` has the length of `s`, and at every position it holds
the lower-case counterpart of the character of `s` when that character is in
`'A'..'Z'`, and the character of `s` itself otherwise. -/
theorem toLower_spec (s : CppString) :
    (toLower s).length = s.length ∧
    ∀ i : Nat, (toLower s)[i]? = (s[i]?).map fun c =>
      if chr 'A' ≤ c ∧ c ≤ chr 'Z' then lowerCounterpart c else c := by
  refine ⟨by simp [toLower], fun i => ?_⟩
  rw [toLower, List.getElem?_map]
  congr 1
  funext c
  exact tolower_eq_counterpart c

/-! ### Case conversion applied twice -/

set_option maxRecDepth 100000 in
theorem toupper_facts : ∀ c : CChar,
    toupper (toupper c) = toupper c ∧ ¬ (chr 'a' ≤ toupper c ∧ toupper c ≤ chr 'z') ∧
    (toupper c = c ↔ ¬ (chr 'a' ≤ c ∧ c ≤ chr 'z')) := by
  decide

set_option maxRecDepth 100000 in
theorem tolower_facts : ∀ c : CChar,
    tolower (tolower c) = tolower c ∧ ¬ (chr 'A' ≤ tolower c ∧ tolower c ≤ chr 'Z') ∧
    (tolower c = c ↔ ¬ (chr 'A' ≤ c ∧ c ≤ chr 'Z')) := by
  decide

theorem map_eq_self_iff (f : CChar → CChar) :
    ∀ s : CppString, s.map f = s ↔ ∀ c ∈ s, f c = c
  | [] => by simp
  | c :: cs => by
    have ih := map_eq_self_iff f cs
    simp [ih]

/-- C11: `toUpper` and `toLower` are idempotent; the result of `toUpper` has
no lower-case ASCII letter and a string is returned unchanged by `toUpper`
exactly when it has none (the same for `toLower` and upper-case letters). -/
theorem case_idempotent (s : CppString) :
    toUpper (toUpper s) = toUpper s ∧ toLower (toLower s) = toLower s ∧
    NoLowerCase (toUpper s) ∧ NoUpperCase (toLower s) ∧
    (toUpper s = s ↔ NoLowerCase s) ∧ (toLower s = s ↔ NoUpperCase s) := by
  refine ⟨?_, ?_, ?_, ?_, ?_, ?_⟩
  · simp only [toUpper, List.map_map]
    exact List.map_congr_left fun c _ => (toupper_facts c).1
  · simp only [toLower, List.map_map]
    exact List.map_congr_left fun c _ => (tolower_facts c).1
  · intro c hc
    obtain ⟨a, _, rfl⟩ := List.mem_map.1 hc
    exact (toupper_facts a).2.1
  · intro c hc
    obtain ⟨a, _, rfl⟩ := List.mem_map.1 hc
    exact (tolower_facts a).2.1
  · rw [toUpper, map_eq_self_iff]
    exact forall₂_congr fun c _ => (toupper_facts c).2.2
  · rw [toLower, map_eq_self_iff]
    exact forall₂_congr fun c _ => (tolower_facts c).2.2

/-! ### The iterations of the loop of `split` -/

/-- One run of the loop body at a delimiter: the token is what lies between
`start` and the delimiter, the new `start` is right after it. -/
theorem splitStep_eq {pre t r : CppString} {d : CChar} (tokens : List CppString)
    (hs : (pre ++ (t ++ d :: r)).length < SIZE_MOD) :
    splitStep (pre ++ (t ++ d :: r)) d
        { tokens := tokens, start := pre.length, end_ := pre.length + t.length }
      = .ret { tokens := tokens ++ [t], start := pre.length + t.length + 1,
               end_ := find (pre ++ (t ++ d :: r)) d (pre.length + t.length + 1) } := by
  simp only [List.length_append, List.length_cons] at hs
  unfold splitStep
  simp only
  rw [sizeSub_of_le (by omega) (by omega), sizeAdd_of_lt (by omega),
    substr_of_le _ (by simp)]
  have htake : List.take (pre.length + t.length - pre.length)
      (List.drop pre.length (pre ++ (t ++ d :: r))) = t := by
    rw [List.drop_left, Nat.add_sub_cancel_left, List.take_left]
  simp only [Outcome.bind, htake]

/-- The states the loop of `split` passes through, with `start` at the end of
`pre` and fuel for what is left: one more state per delimiter left, each
reached from the one before by a run of the body that advances `start`, every
`start` inside the string, the last state the exit of the loop. -/
theorem splitTrace_spec (d : CChar) :
    ∀ (fuel : Nat) (pre rest : CppString) (tokens : List CppString),
      (pre ++ rest).length < SIZE_MOD → rest.length < fuel →
      ∃ tail,
        splitTrace (pre ++ rest) d fuel
          { tokens := tokens, start := pre.length,
            end_ := find (pre ++ rest) d pre.length }
          = { tokens := tokens, start := pre.length,
              end_ := find (pre ++ rest) d pre.length } :: tail ∧
        tail.length = rest.count d ∧
        List.Chain (Advances (pre ++ rest).length)
          { tokens := tokens, start := pre.length,
            end_ := find (pre ++ rest) d pre.length } tail ∧
        (∀ x ∈ tail, x.start ≤ (pre ++ rest).length) ∧
        ∃ last,
          (({ tokens := tokens, start := pre.length,
              end_ := find (pre ++ rest) d pre.length } : SplitState) :: tail).getLast?
            = some last ∧ last.end_ = npos
  | 0, _, _, _, _, hf => absurd hf (Nat.not_lt_zero _)
  | fuel + 1, pre, rest, tokens, hs, hf => by
    by_cases hd : d ∈ rest
    · obtain ⟨t, r, rfl, ht⟩ := List.eq_append_cons_of_mem hd
      have hstep := splitStep_eq tokens hs
      simp only [List.length_append, List.length_cons] at hs hf
      have hend : pre.length + t.length ≠ npos := by
        simp only [npos]; omega
      have key := splitTrace_spec d fuel (pre ++ (t ++ [d])) r (tokens ++ [t])
        (by simp only [List.length_append, List.length_cons, List.length_nil]; omega)
        (by omega)
      have e1 : (pre ++ (t ++ [d])) ++ r = pre ++ (t ++ d :: r) := by simp
      have e2 : (pre ++ (t ++ [d])).length = pre.length + t.length + 1 := by
        simp only [List.length_append, List.length_cons, List.length_nil]; omega
      rw [e1, e2] at key
      obtain ⟨tail, htrace, hlen, hchain, hstart, last, hlast, hexit⟩ := key
      refine ⟨SplitState.mk (tokens ++ [t]) (pre.length + t.length + 1)
        (find (pre ++ (t ++ d :: r)) d (pre.length + t.length + 1)) :: tail,
        ?_, ?_, ?_, ?_, last, ?_, hexit⟩
      · unfold splitTrace
        simp only [find_append ht]
        rw [if_pos hend, hstep]
        simp only
        rw [htrace]
      · rw [List.length_cons, hlen, List.count_append, List.count_cons_self,
          List.count_eq_zero_of_not_mem ht]
        omega
      · refine List.Chain.cons ⟨?_, ?_, ?_, ?_⟩ hchain
        · simp only [find_append ht]; exact hend
        · simp only [find_append ht]
        · simp only; omega
        · simp only [List.length_append, List.length_cons]; omega
      · intro x hx
        rcases List.mem_cons.1 hx with rfl | hx
        · simp only [List.length_append, List.length_cons]; omega
        · exact hstart x hx
      · rw [List.getLast?_cons_cons]
        exact hlast
    · refine ⟨[], ?_, ?_, List.Chain.nil, fun x hx => absurd hx (List.not_mem_nil x),
        _, rfl, ?_⟩
      · unfold splitTrace
        simp only [find_of_not_mem hd]
        rw [if_neg (by simp)]
      · rw [List.length_nil, List.count_eq_zero_of_not_mem hd]
      · exact find_of_not_mem hd

/-- The loop of `split` returns what the last push makes of the last state of
its trace, when that state is the exit of the loop. -/
theorem splitLoop_eq_of_trace (str : CppString) (d : CChar) :
    ∀ (fuel : Nat) (st last : SplitState),
      (splitTrace str d fuel st).getLast? = some last → last.end_ = npos →
      splitLoop str d fuel st
        = (substr str last.start npos).bind fun t => .ret (last.tokens ++ [t])
  | 0, _, _, h, _ => by simp [splitTrace] at h
  | fuel + 1, st, last, h, hexit => by
    unfold splitTrace at h
    unfold splitLoop
    by_cases hend : st.end_ ≠ npos
    · rw [if_pos hend] at h ⊢
      cases hstep : splitStep str d st with
      | ret next =>
        rw [hstep] at h
        simp only at h
        cases htr : splitTrace str d fuel next with
        | nil =>
          rw [htr] at h
          simp only [List.getLast?_singleton, Option.some.injEq] at h
          exact absurd (h ▸ hexit) hend
        | cons x xs =>
          rw [htr, List.getLast?_cons_cons, ← htr] at h
          simp only [Outcome.bind]
          exact splitLoop_eq_of_trace str d fuel next last h hexit
      | outOfRange =>
        rw [hstep] at h
        simp only [List.getLast?_singleton, Option.some.injEq] at h
        exact absurd (h ▸ hexit) hend
      | fuelOut =>
        rw [hstep] at h
        simp only [List.getLast?_singleton, Option.some.injEq] at h
        exact absurd (h ▸ hexit) hend
    · rw [if_neg hend] at h ⊢
      simp only [List.getLast?_singleton, Option.some.injEq] at h
      rw [h]

/-- C28: the loop of `split` terminates: from the first state the loop body
runs exactly once per occurrence of `d`, each run setting `start` to
`end + 1`, strictly greater than the `start` of before and at most the length
of `s`; the loop then exits (`end = npos`), every `substr` call, the last
`str.substr(start)` included, has `start` at most the length of `s`, and
`split` returns. -/
theorem split_loop_terminates (s : CppString) (d : CChar) (hs : s.length < SIZE_MOD) :
    ∃ tail last,
      splitTrace s d (s.length + 1) { tokens := [], start := 0, end_ := find s d 0 }
        = { tokens := [], start := 0, end_ := find s d 0 } :: tail ∧
      tail.length = s.count d ∧
      List.Chain (Advances s.length) { tokens := [], start := 0, end_ := find s d 0 }
        tail ∧
      (∀ x ∈ splitTrace s d (s.length + 1)
          { tokens := [], start := 0, end_ := find s d 0 }, x.start ≤ s.length) ∧
      (splitTrace s d (s.length + 1)
          { tokens := [], start := 0, end_ := find s d 0 }).getLast? = some last ∧
      last.end_ = npos ∧
      ∃ t, substr s last.start npos = .ret t ∧ split s d = .ret (last.tokens ++ [t]) := by
  obtain ⟨tail, htrace, hlen, hchain, hstart, last, hlast, hexit⟩ :=
    splitTrace_spec d (s.length + 1) [] s [] (by simpa using hs) (Nat.lt_succ_self _)
  simp only [List.nil_append, List.length_nil] at htrace hlen hchain hstart hlast
  have hall : ∀ x ∈ splitTrace s d (s.length + 1)
      { tokens := [], start := 0, end_ := find s d 0 }, x.start ≤ s.length := by
    intro x hx
    rw [htrace] at hx
    rcases List.mem_cons.1 hx with rfl | hx
    · exact Nat.zero_le _
    · exact hstart x hx
  have hlast2 : (splitTrace s d (s.length + 1)
      { tokens := [], start := 0, end_ := find s d 0 }).getLast? = some last := by
    rw [htrace]; exact hlast
  have hle : last.start ≤ s.length := hall last (List.mem_of_getLast?_eq_some hlast2)
  refine ⟨tail, last, htrace, hlen, hchain, hall, hlast2, hexit, s.drop last.start,
    substr_npos hle hs, ?_⟩
  have h := splitLoop_eq_of_trace s d (s.length + 1) _ last hlast2 hexit
  rw [substr_npos hle hs] at h
  exact h

/-- C28 at `"a,b,c"` with delimiter `','`: two runs of the body. -/
theorem split_loop_terminates_witness :
    (lit "a,b,c").length < SIZE_MOD ∧
    ∃ (tail : List SplitState) (last : SplitState),
      splitTrace (lit "a,b,c") (chr ',') ((lit "a,b,c").length + 1)
        { tokens := [], start := 0, end_ := find (lit "a,b,c") (chr ',') 0 }
        = { tokens := [], start := 0, end_ := find (lit "a,b,c") (chr ',') 0 } :: tail ∧
      tail.length = 2 ∧ last.end_ = npos ∧ last.start ≤ (lit "a,b,c").length ∧
      ∃ t, split (lit "a,b,c") (chr ',') = .ret (last.tokens ++ [t]) := by
  obtain ⟨tail, last, h1, h2, _, h4, h5, h6, t, _, h8⟩ :=
    split_loop_terminates (lit "a,b,c") (chr ',') (by decide)
  exact ⟨by decide, tail, last, h1, h2, h6,
    h4 last (List.mem_of_getLast?_eq_some h5), t, h8⟩

/-! ### Behaviour of `trim`, `split`, the case conversions and the two tests -/

/-- C22 fails at `"\vhello"` and at `"hello\f"`: `trim` returns them
unchanged, so its result begins with `'\v'` (byte 11), or ends with `'\f'`
(byte 12), and `isspace` accepts both: the set of `trim` is `" \t\n\r"`. -/
theorem trim_keeps_vertical_tab :
    (∃ m, trim (11 :: lit "hello") = .ret m ∧ m.head? = some 11 ∧ isspace 11 = true) ∧
    (∃ m, trim (lit "hello" ++ [12]) = .ret m ∧ m.getLast? = some 12 ∧
      isspace 12 = true) :=
  ⟨⟨11 :: lit "hello", by decide, by decide, by decide⟩,
    ⟨lit "hello" ++ [12], by decide, by decide, by decide⟩⟩

set_option maxRecDepth 100000 in
theorem isspace_iff_trim_char : ∀ c : CChar,
    (isspace c = true ∧ c ≠ 11 ∧ c ≠ 12) ↔ IsTrimChar c := by
  decide

/-- C22, amended: `trim` trims whitespace from both ends: for every string `s`,
`trim s` neither begins nor ends with a whitespace character, where whitespace
is space, `'\t'`, `'\n'` and `'\r'`, that is every character `isspace` accepts
other than `'\v'` (byte 11) and `'\f'` (byte 12). -/
theorem trim_no_whitespace_ends (s : CppString) (hs : s.length < SIZE_MOD) :
    ∃ m, trim s = .ret m ∧
      ¬ (∃ a, m.head? = some a ∧ IsTrimChar a) ∧
      ¬ (∃ b, m.getLast? = some b ∧ IsTrimChar b) ∧
      ¬ (∃ a, m.head? = some a ∧ isspace a = true ∧ a ≠ 11 ∧ a ≠ 12) ∧
      ¬ (∃ b, m.getLast? = some b ∧ isspace b = true ∧ b ≠ 11 ∧ b ≠ 12) := by
  rcases trim_spec s hs with ⟨_, ht⟩ | ⟨l, m, r, a, b, _, _, _, hma, ha, hmb, hb, ht⟩
  · exact ⟨[], ht, by simp, by simp, by simp, by simp⟩
  · have ha2 : ¬ IsTrimChar a := fun h => ha ((mem_WHITESPACE_iff a).2 h)
    have hb2 : ¬ IsTrimChar b := fun h => hb ((mem_WHITESPACE_iff b).2 h)
    refine ⟨m, ht, ?_, ?_, ?_, ?_⟩
    · rintro ⟨x, hx, hxw⟩
      rw [hma, Option.some.injEq] at hx
      exact ha2 (hx ▸ hxw)
    · rintro ⟨x, hx, hxw⟩
      rw [hmb, Option.some.injEq] at hx
      exact hb2 (hx ▸ hxw)
    · rintro ⟨x, hx, hxw⟩
      rw [hma, Option.some.injEq] at hx
      exact ha2 (hx ▸ (isspace_iff_trim_char x).1 hxw)
    · rintro ⟨x, hx, hxw⟩
      rw [hmb, Option.some.injEq] at hx
      exact hb2 (hx ▸ (isspace_iff_trim_char x).1 hxw)

/-- C22, amended, at `"\t\thello world \r\n"`. -/
theorem trim_no_whitespace_ends_witness :
    (lit "\t\thello world \r\n").length < SIZE_MOD ∧
    ∃ m, trim (lit "\t\thello world \r\n") = .ret m ∧
      ¬ (∃ a, m.head? = some a ∧ IsTrimChar a) ∧
      ¬ (∃ b, m.getLast? = some b ∧ IsTrimChar b) ∧
      ¬ (∃ a, m.head? = some a ∧ isspace a = true ∧ a ≠ 11 ∧ a ≠ 12) ∧
      ¬ (∃ b, m.getLast? = some b ∧ isspace b = true ∧ b ≠ 11 ∧ b ≠ 12) :=
  ⟨by decide, trim_no_whitespace_ends (lit "\t\thello world \r\n") (by decide)⟩

/-- C23: `split` distributes over concatenation at a delimiter:
`split (a ++ [d] ++ b) d = split a d ++ split b d`, all three calls
returning. -/
theorem split_concat (a b : CppString) (d : CChar)
    (h : (a ++ [d] ++ b).length < SIZE_MOD) :
    ∃ ta tb, split a d = .ret ta ∧ split b d = .ret tb ∧
      split (a ++ [d] ++ b) d = .ret (ta ++ tb) := by
  simp only [List.length_append, List.length_cons, List.length_nil] at h
  have hab : (a ++ [d] ++ b).length < SIZE_MOD := by
    simp only [List.length_append, List.length_cons, List.length_nil]
    exact h
  refine ⟨splitRef d a, splitRef d b, split_eq a d (by omega), split_eq b d (by omega), ?_⟩
  rw [split_eq _ d hab, List.append_assoc, List.singleton_append, splitRef_concat]

/-- C23 at `a = "a,b"`, `b = "c"`, `d = ','`. -/
theorem split_concat_witness :
    (lit "a,b" ++ [chr ','] ++ lit "c").length < SIZE_MOD ∧
    ∃ ta tb, split (lit "a,b") (chr ',') = .ret ta ∧
      split (lit "c") (chr ',') = .ret tb ∧
      split (lit "a,b" ++ [chr ','] ++ lit "c") (chr ',') = .ret (ta ++ tb) :=
  ⟨by decide, split_concat (lit "a,b") (lit "c") (chr ',') (by decide)⟩

/-- C24: `trim` is idempotent: `trim s` returns some `m` and `trim m` returns
`m`. -/
theorem trim_idempotent (s : CppString) (hs : s.length < SIZE_MOD) :
    ∃ m, trim s = .ret m ∧ trim m = .ret m := by
  rcases trim_spec s hs with ⟨_, ht⟩ | ⟨l, m, r, a, b, hsplit, _, _, hma, ha, hmb, hb, ht⟩
  · exact ⟨[], ht, rfl⟩
  · refine ⟨m, ht, ?_⟩
    have hlen : m.length < SIZE_MOD := by
      have := congrArg List.length hsplit
      simp only [List.length_append] at this
      omega
    rcases trim_spec m hlen with ⟨hall, _⟩ | ⟨l2, m2, r2, _, _, hsplit2, hl2, hr2, _, _, _, _, ht2⟩
    · exact absurd (hall a (List.mem_of_mem_head? hma)) ha
    · have hl2nil : l2 = [] := by
        cases l2 with
        | nil => rfl
        | cons x xs =>
          rw [hsplit2] at hma
          simp only [List.cons_append, List.head?_cons, Option.some.injEq] at hma
          exact absurd (hl2 x (List.mem_cons_self _ _)) (hma ▸ ha)
      have hr2nil : r2 = [] := by
        by_contra hne
        rw [hsplit2, List.getLast?_append_of_ne_nil _ hne] at hmb
        exact hb (hr2 b (List.mem_of_getLast?_eq_some hmb))
      rw [hl2nil, hr2nil, List.nil_append, List.append_nil] at hsplit2
      rw [ht2, ← hsplit2]

/-- C24 at `"  hello world \t"`. -/
theorem trim_idempotent_witness :
    (lit "  hello world \t").length < SIZE_MOD ∧
    ∃ m, trim (lit "  hello world \t") = .ret m ∧ trim m = .ret m :=
  ⟨by decide, trim_idempotent (lit "  hello world \t") (by decide)⟩

set_option maxRecDepth 100000 in
theorem toupper_tolower : ∀ c : CChar,
    toupper (tolower c) = toupper c ∧ tolower (toupper c) = tolower c := by
  decide

/-- C26: the case conversions absorb each other:
`toUpper (toLower s) = toUpper s` and `toLower (toUpper s) = toLower s`. -/
theorem case_absorb (s : CppString) :
    toUpper (toLower s) = toUpper s ∧ toLower (toUpper s) = toLower s := by
  constructor
  · simp only [toUpper, toLower, List.map_map]
    exact List.map_congr_left fun c _ => (toupper_tolower c).1
  · simp only [toUpper, toLower, List.map_map]
    exact List.map_congr_left fun c _ => (toupper_tolower c).2

/-- C27: `endsWith` is `startsWith` on the reversed strings:
`endsWith s p = startsWith (reverse s) (reverse p)`. -/
theorem endsWith_mirror (s p : CppString) (hs : s.length < SIZE_MOD) :
    endsWith s p = startsWith s.reverse p.reverse := by
  obtain ⟨b1, h1, e1⟩ := endsWith_eq s p hs
  obtain ⟨b2, h2, e2⟩ := startsWith_eq s.reverse p.reverse
  rw [h1, h2]
  congr 1
  rw [Bool.eq_iff_iff, e1, e2]
  constructor
  · rintro ⟨t, rfl⟩
    exact ⟨t.reverse, by simp⟩
  · rintro ⟨t, ht⟩
    refine ⟨t.reverse, ?_⟩
    have := congrArg List.reverse ht
    simpa using this

/-- C27 at `s = "hello world"` with `p = "world"` and with `p = "hello"`. -/
theorem endsWith_mirror_witness :
    (lit "hello world").length < SIZE_MOD ∧
    endsWith (lit "hello world") (lit "world")
      = startsWith (lit "hello world").reverse (lit "world").reverse ∧
    endsWith (lit "hello world") (lit "hello")
      = startsWith (lit "hello world").reverse (lit "hello").reverse :=
  ⟨by decide, endsWith_mirror (lit "hello world") (lit "world") (by decide),
    endsWith_mirror (lit "hello world") (lit "hello") (by decide)⟩

end StringUtils

namespace wx

open StringUtils

/-! ## `wx::Button` -/

/-- C19: for every label (the empty one too) and every flag, a new
`wx::Button` reports the label, the flag and not clicked; built without the
flag it is enabled. -/
theorem button_create_reports (label : CppString) (enabled : Bool) :
    (Button.create label enabled).GetLabel = label ∧
    (Button.create label enabled).IsEnabled = enabled ∧
    (Button.create label enabled).WasClicked = false ∧
    (Button.create [] enabled).GetLabel = [] ∧
    (Button.createDefault label).GetLabel = label ∧
    (Button.createDefault label).IsEnabled = true ∧
    (Button.createDefault label).WasClicked = false :=
  ⟨rfl, rfl, rfl, rfl, rfl, rfl, rfl⟩

/-- C20: `Click()` on an enabled button makes `WasClicked()` true and changes
nothing else; on a disabled button it leaves the whole state unchanged. -/
theorem button_click (b : Button) :
    (b.IsEnabled = true →
      b.Click.WasClicked = true ∧ b.Click.GetLabel = b.GetLabel ∧
      b.Click.IsEnabled = b.IsEnabled ∧
      b.Click = { label_ := b.label_, enabled_ := b.enabled_, clicked_ := true }) ∧
    (b.IsEnabled = false → b.Click = b ∧ b.Click.WasClicked = b.WasClicked) := by
  constructor
  · intro h
    simp only [Button.IsEnabled] at h
    simp [Button.Click, Button.WasClicked, Button.GetLabel, Button.IsEnabled, h]
  · intro h
    simp only [Button.IsEnabled] at h
    simp [Button.Click, h]

/-- C20 at an enabled and at a disabled button labelled `"Test"`. -/
theorem button_click_witness :
    ((Button.create (lit "Test") true).IsEnabled = true ∧
      (Button.create (lit "Test") true).Click.WasClicked = true ∧
      (Button.create (lit "Test") true).Click.GetLabel = lit "Test") ∧
    ((Button.create (lit "Test") false).IsEnabled = false ∧
      (Button.create (lit "Test") false).Click = Button.create (lit "Test") false ∧
      (Button.create (lit "Test") false).Click.WasClicked = false) := by
  obtain ⟨h1, h2, _, _⟩ := (button_click (Button.create (lit "Test") true)).1 rfl
  obtain ⟨k1, k2⟩ := (button_click (Button.create (lit "Test") false)).2 rfl
  exact ⟨⟨rfl, h1, h2⟩, ⟨rfl, k1, k2⟩⟩

/-- C21: after `SetEnabled(b)`, `IsEnabled()` returns `b`, and `GetLabel()`
and `WasClicked()` return what they returned before the call. -/
theorem button_setEnabled (b : Button) (enabled : Bool) :
    (b.SetEnabled enabled).IsEnabled = enabled ∧
    (b.SetEnabled enabled).GetLabel = b.GetLabel ∧
    (b.SetEnabled enabled).WasClicked = b.WasClicked :=
  ⟨rfl, rfl, rfl⟩

theorem calls_keep (cs : List ButtonCall) :
    ∀ b : Button,
      (b.clicked_ = true → (b.calls cs).clicked_ = true) ∧
      (b.calls cs).label_ = b.label_ := by
  induction cs with
  | nil => exact fun b => ⟨fun h => h, rfl⟩
  | cons c cs ih =>
    intro b
    have hstep : (b.clicked_ = true → (b.call c).clicked_ = true) ∧
        (b.call c).label_ = b.label_ := by
      cases c with
      | setEnabled e => exact ⟨fun h => h, rfl⟩
      | click =>
        simp only [Button.call, Button.Click]
        split
        · exact ⟨fun _ => rfl, rfl⟩
        · exact ⟨fun h => h, rfl⟩
    obtain ⟨h1, h2⟩ := ih (b.call c)
    exact ⟨fun h => h1 (hstep.1 h), h2.trans hstep.2⟩

/-- C25: in every sequence of `SetEnabled` and `Click` calls on a new
`wx::Button`, once `WasClicked()` is true it is true after every later call,
and `GetLabel()` keeps returning the constructor's label; a button clicked
while enabled and then disabled still reports `WasClicked()` after a further
`Click()`. -/
theorem button_clicked_stays (label : CppString) (enabled : Bool)
    (cs later : List ButtonCall) :
    (((Button.create label enabled).calls cs).WasClicked = true →
      ((Button.create label enabled).calls (cs ++ later)).WasClicked = true) ∧
    ((Button.create label enabled).calls cs).GetLabel = label ∧
    ((Button.create label true).calls
      [ButtonCall.click, ButtonCall.setEnabled false, ButtonCall.click]).WasClicked
      = true := by
  refine ⟨fun h => ?_, (calls_keep cs _).2, rfl⟩
  have e : (Button.create label enabled).calls (cs ++ later)
      = ((Button.create label enabled).calls cs).calls later := by
    simp [Button.calls, List.foldl_append]
  rw [e]
  exact (calls_keep later _).1 h

/-- C25 at a button `"Test"`: enabled and clicked, then disabled, clicked,
enabled again. -/
theorem button_clicked_stays_witness :
    ((Button.create (lit "Test") true).calls [ButtonCall.click]).WasClicked = true ∧
    ((Button.create (lit "Test") true).calls
      ([ButtonCall.click] ++
        [ButtonCall.setEnabled false, ButtonCall.click,
          ButtonCall.setEnabled true])).WasClicked = true ∧
    ((Button.create (lit "Test") true).calls [ButtonCall.click]).GetLabel
      = lit "Test" := by
  obtain ⟨h1, h2, _⟩ := button_clicked_stays (lit "Test") true [ButtonCall.click]
    [ButtonCall.setEnabled false, ButtonCall.click, ButtonCall.setEnabled true]
  exact ⟨rfl, h1 rfl, h2⟩

end wx

namespace security

open StringUtils

/-! ## The authentication service: lemmas -/

@[simp] theorem putCounter_now (st : State) (c : RateCounter) :
    (putCounter st c).now = st.now := rfl

@[simp] theorem putCounter_sessions (st : State) (c : RateCounter) :
    (putCounter st c).sessions = st.sessions := rfl

@[simp] theorem putCounter_entropy (st : State) (c : RateCounter) :
    (putCounter st c).entropy = st.entropy := rfl

@[simp] theorem RecordSuccess_now (st : State) (u : CppString) :
    (RecordSuccess st u).now = st.now := by
  unfold RecordSuccess; split <;> rfl

@[simp] theorem RecordSuccess_sessions (st : State) (u : CppString) :
    (RecordSuccess st u).sessions = st.sessions := by
  unfold RecordSuccess; split <;> rfl

@[simp] theorem RecordSuccess_entropy (st : State) (u : CppString) :
    (RecordSuccess st u).entropy = st.entropy := by
  unfold RecordSuccess; split <;> rfl

@[simp] theorem RecordFailure_now (cfg : Config) (st : State) (u : CppString) :
    (RecordFailure cfg st u).now = st.now := by
  unfold RecordFailure; split
  · rfl
  · split <;> rfl

@[simp] theorem RecordFailure_sessions (cfg : Config) (st : State) (u : CppString) :
    (RecordFailure cfg st u).sessions = st.sessions := by
  unfold RecordFailure; split
  · rfl
  · split <;> rfl

@[simp] theorem RecordFailure_entropy (cfg : Config) (st : State) (u : CppString) :
    (RecordFailure cfg st u).entropy = st.entropy := by
  unfold RecordFailure; split
  · rfl
  · split <;> rfl

/-- What a successful `Authenticate` returns and stores. -/
theorem Authenticate_of_accepted (cfg : Config) (st : State) {u p : CppString}
    (hu : u ≠ []) (hp : p ≠ []) (hadm : Admit cfg st u = true)
    (hv : cfg.verify u p = true) :
    (Authenticate cfg st u p).1 =
      { success := true, userId := u, token := cfg.generate st.entropy,
        errorCode := none } ∧
    (Authenticate cfg st u p).2.now = st.now ∧
    (Authenticate cfg st u p).2.entropy = st.entropy + 1 ∧
    (Authenticate cfg st u p).2.counters = (RecordSuccess st u).counters ∧
    (Authenticate cfg st u p).2.sessions =
      { token := cfg.generate st.entropy, identity := u, issued := st.now,
        expiry := st.now + TOKEN_TTL } :: st.sessions := by
  simp [Authenticate, hu, hp, hadm, hv, Issue]

/-- What `Authenticate` returns when the verifier rejects the pair. -/
theorem Authenticate_of_rejected (cfg : Config) (st : State) {u p : CppString}
    (hu : u ≠ []) (hp : p ≠ []) (hadm : Admit cfg st u = true)
    (hv : cfg.verify u p = false) :
    Authenticate cfg st u p =
      (AuthResult.failure .INVALID_CREDENTIALS, RecordFailure cfg st u) := by
  simp [Authenticate, hu, hp, hadm, hv]

/-- What `Authenticate` returns when the identity is not admitted. -/
theorem Authenticate_of_not_admitted (cfg : Config) (st : State) {u p : CppString}
    (hu : u ≠ []) (hp : p ≠ []) (hadm : Admit cfg st u = false) :
    Authenticate cfg st u p = (AuthResult.failure .RATE_LIMITED, st) := by
  simp [Authenticate, hu, hp, hadm]

/-- When `ValidateToken` answers true. -/
theorem ValidateToken_eq_true_iff (cfg : Config) (st : State) (t : CppString) :
    (ValidateToken cfg st t).1 = true ↔
      cfg.wellFormed t = true ∧
      ∃ s, st.sessions.find? (fun s => s.token = t) = some s ∧ st.now < s.expiry := by
  unfold ValidateToken Validate
  by_cases hw : cfg.wellFormed t = false
  · simp [hw]
  · rw [if_neg hw]
    have hw2 : cfg.wellFormed t = true := by simpa using hw
    cases hf : st.sessions.find? (fun s => s.token = t) with
    | none => simp
    | some s =>
      by_cases he : s.expiry ≤ st.now
      · simp [he, hw2]
      · simp [he, hw2]; omega

/-! ### Rate Limiter -/

theorem counterOf_putCounter (st : State) (c : RateCounter) :
    counterOf (putCounter st c) c.identity = some c := by
  simp [counterOf, putCounter]

theorem counterOf_identity {st : State} {u : CppString} {c : RateCounter}
    (h : counterOf st u = some c) : c.identity = u := by
  have := List.find?_some h
  simpa using this

theorem Admit_eq (cfg : Config) (st : State) (u : CppString) :
    Admit cfg st u = decide (streak cfg st u < MAX_FAILED_ATTEMPTS) := by
  unfold Admit streak
  cases counterOf st u with
  | none => simp [MAX_FAILED_ATTEMPTS]
  | some c =>
    by_cases hw : inWindow cfg st c = true
    · by_cases h5 : MAX_FAILED_ATTEMPTS ≤ c.failures
      · simp [hw, h5, Nat.not_lt.2 h5]
      · simp [hw, h5, Nat.lt_of_not_le h5]
    · simp [hw, MAX_FAILED_ATTEMPTS]

theorem streak_putCounter (cfg : Config) (st : State) (c : RateCounter) :
    streak cfg (putCounter st c) c.identity =
      if st.now < c.windowStart + cfg.cooldown then c.failures else 0 := by
  simp [streak, counterOf_putCounter, inWindow]

theorem streak_RecordFailure (cfg : Config) (st : State) (u : CppString) :
    streak cfg (RecordFailure cfg st u) u = streak cfg st u + 1 := by
  have hcd := cfg.cooldown_pos
  have hfirst := streak_putCounter cfg st
    { identity := u, failures := 1, windowStart := st.now }
  simp only at hfirst
  rw [if_pos (by omega)] at hfirst
  cases hc : counterOf st u with
  | none =>
    simp only [RecordFailure, hc]
    rw [hfirst]
    simp [streak, hc]
  | some c =>
    simp only [RecordFailure, hc]
    by_cases hw : inWindow cfg st c = true
    · have hw2 : st.now < c.windowStart + cfg.cooldown := by simpa [inWindow] using hw
      by_cases hf : c.failures = 0
      · rw [if_neg (by simp [hf]), hfirst]
        simp [streak, hc, hw, hf]
      · rw [if_pos (by simp [hw, hf])]
        have h := streak_putCounter cfg st
          { identity := u, failures := c.failures + 1,
            windowStart := if cfg.slidingWindow then st.now else c.windowStart }
        simp only at h
        rw [h, if_pos (by split <;> omega)]
        simp [streak, hc, hw]
    · rw [if_neg (by simp [hw]), hfirst]
      simp [streak, hc, hw]

theorem streak_RecordSuccess (cfg : Config) (st : State) (u : CppString) :
    streak cfg (RecordSuccess st u) u = 0 := by
  unfold RecordSuccess
  cases hc : counterOf st u with
  | none => simp [streak, hc]
  | some c =>
    have h := streak_putCounter cfg st
      { identity := u, failures := 0, windowStart := c.windowStart }
    simp only at h
    rw [h]
    simp

/-- Consecutive failed attempts with non-empty fields: the clock stands still
and the identity is refused once the failures reach the threshold. -/
theorem attempts_failed (cfg : Config) {u : CppString} (hu : u ≠ []) :
    ∀ (ps : List CppString) (st : State),
      (∀ q ∈ ps, q ≠ []) →
      (∀ r ∈ (attempts cfg u st ps).1, r.success = false) →
      (attempts cfg u st ps).2.now = st.now ∧
      (MAX_FAILED_ATTEMPTS ≤ streak cfg st u + ps.length →
        MAX_FAILED_ATTEMPTS ≤ streak cfg (attempts cfg u st ps).2 u)
  | [], st, _, _ => ⟨rfl, fun h => by simpa [attempts] using h⟩
  | q :: ps, st, hne, hfail => by
    have hq : q ≠ [] := hne q (List.mem_cons_self _ _)
    have hne2 : ∀ x ∈ ps, x ≠ [] := fun x hx => hne x (List.mem_cons_of_mem _ hx)
    simp only [attempts, List.mem_cons, forall_eq_or_imp] at hfail
    obtain ⟨hfail1, hfail2⟩ := hfail
    have ih := attempts_failed cfg hu ps (Authenticate cfg st u q).2 hne2 hfail2
    simp only [attempts, List.length_cons]
    by_cases hadm : Admit cfg st u = true
    · by_cases hv : cfg.verify u q = true
      · rw [(Authenticate_of_accepted cfg st hu hq hadm hv).1] at hfail1
        simp at hfail1
      · have hv2 : cfg.verify u q = false := by simpa using hv
        have e := Authenticate_of_rejected cfg st hu hq hadm hv2
        rw [e] at ih ⊢
        simp only [RecordFailure_now, streak_RecordFailure] at ih
        exact ⟨ih.1, fun h => ih.2 (by omega)⟩
    · have hadm2 : Admit cfg st u = false := by simpa using hadm
      have e := Authenticate_of_not_admitted cfg st hu hq hadm2
      rw [e] at ih ⊢
      dsimp only at ih ⊢
      refine ⟨ih.1, fun _ => ih.2 ?_⟩
      rw [Admit_eq] at hadm2
      simp only [decide_eq_false_iff_not, Nat.not_lt] at hadm2
      omega

/-! ### Session Store -/

theorem Authenticate_success {cfg : Config} {st : State} {u p : CppString}
    (h : (Authenticate cfg st u p).1.success = true) :
    u ≠ [] ∧ p ≠ [] ∧ Admit cfg st u = true ∧ cfg.verify u p = true := by
  unfold Authenticate at h
  by_cases hu : u = []
  · simp [hu, AuthResult.failure] at h
  by_cases hp : p = []
  · simp [hu, hp, AuthResult.failure] at h
  by_cases hadm : Admit cfg st u = false
  · simp [hu, hp, hadm, AuthResult.failure] at h
  by_cases hv : cfg.verify u p = false
  · simp [hu, hp, hadm, hv, AuthResult.failure] at h
  · exact ⟨hu, hp, by simpa using hadm, by simpa using hv⟩

/-- What `Authenticate` may do to the state: the clock stands still, and the
store is as before or has one more session, of the token generated from the
entropy. -/
theorem Authenticate_effect (cfg : Config) (st : State) (u p : CppString) :
    (Authenticate cfg st u p).2.now = st.now ∧
    (((Authenticate cfg st u p).2.sessions = st.sessions ∧
        (Authenticate cfg st u p).2.entropy = st.entropy) ∨
      ((Authenticate cfg st u p).2.sessions =
          { token := cfg.generate st.entropy, identity := u, issued := st.now,
            expiry := st.now + TOKEN_TTL } :: st.sessions ∧
        (Authenticate cfg st u p).2.entropy = st.entropy + 1)) := by
  unfold Authenticate
  by_cases hu : u = []
  · simp [hu]
  by_cases hp : p = []
  · simp [hu, hp]
  by_cases hadm : Admit cfg st u = false
  · simp [hu, hp, hadm]
  by_cases hv : cfg.verify u p = false
  · simp [hu, hp, hadm, hv]
  · simp [hu, hp, hadm, hv, Issue]

theorem Validate_effect (cfg : Config) (st : State) (t : CppString) :
    (Validate cfg st t).2.now = st.now ∧
    (Validate cfg st t).2.entropy = st.entropy ∧
    ∀ s ∈ (Validate cfg st t).2.sessions, s ∈ st.sessions := by
  unfold Validate
  split
  · exact ⟨rfl, rfl, fun _ h => h⟩
  · split
    · exact ⟨rfl, rfl, fun _ h => h⟩
    · split
      · exact ⟨rfl, rfl, fun s h => (List.mem_filter.1 h).1⟩
      · exact ⟨rfl, rfl, fun _ h => h⟩

/-- What one call may do to the state: the clock and the entropy do not go
back, and a session of the store was there before or is new, bearing the token
generated from the entropy of before. -/
theorem step_effect (cfg : Config) (st : State) (c : Call) :
    st.now ≤ (step cfg st c).now ∧ st.entropy ≤ (step cfg st c).entropy ∧
    ∀ s ∈ (step cfg st c).sessions,
      s ∈ st.sessions ∨
        (s.token = cfg.generate st.entropy ∧ st.entropy < (step cfg st c).entropy) := by
  cases c with
  | authenticate u p =>
    obtain ⟨h1, h2⟩ := Authenticate_effect cfg st u p
    simp only [step]
    rcases h2 with ⟨h2, h3⟩ | ⟨h2, h3⟩
    · rw [h1, h2, h3]
      exact ⟨Nat.le_refl _, Nat.le_refl _, fun _ h => Or.inl h⟩
    · rw [h1, h2, h3]
      refine ⟨Nat.le_refl _, Nat.le_succ _, fun s h => ?_⟩
      rcases List.mem_cons.1 h with rfl | h
      · exact Or.inr ⟨rfl, Nat.lt_succ_self _⟩
      · exact Or.inl h
  | validateToken t =>
    obtain ⟨h1, h2, h3⟩ := Validate_effect cfg st t
    simp only [step, ValidateToken]
    rw [h1, h2]
    exact ⟨Nat.le_refl _, Nat.le_refl _, fun s h => Or.inl (h3 s h)⟩
  | logout t =>
    exact ⟨Nat.le_refl _, Nat.le_refl _, fun s h => Or.inl (List.mem_filter.1 h).1⟩
  | advanceTime n =>
    exact ⟨Nat.le_add_right _ _, Nat.le_refl _, fun s h => Or.inl h⟩

/-- Tokens are not issued twice: every token in the store was generated from
an entropy already used. -/
theorem run_fresh (cfg : Config) :
    ∀ (calls : List Call) (st : State),
      (∀ s ∈ st.sessions, ∃ k, k < st.entropy ∧ s.token = cfg.generate k) →
      ∀ s ∈ (run cfg st calls).sessions,
        ∃ k, k < (run cfg st calls).entropy ∧ s.token = cfg.generate k
  | [], _, h => h
  | c :: calls, st, h => by
    obtain ⟨_, h2, h3⟩ := step_effect cfg st c
    refine run_fresh cfg calls (step cfg st c) fun s hs => ?_
    rcases h3 s hs with hold | ⟨hnew, hlt⟩
    · obtain ⟨k, hk, e⟩ := h s hold
      exact ⟨k, by omega, e⟩
    · exact ⟨st.entropy, hlt, hnew⟩

/-- Once the entropy `k` is used, no later call stores a session under the
token generated from it: the expiry of that token stays bounded, while the
clock does not go back. -/
theorem run_expiry_bound (cfg : Config) (k bound : Nat) :
    ∀ (calls : List Call) (st : State),
      k < st.entropy →
      (∀ s ∈ st.sessions, s.token = cfg.generate k → s.expiry ≤ bound) →
      st.now ≤ (run cfg st calls).now ∧
      ∀ s ∈ (run cfg st calls).sessions, s.token = cfg.generate k → s.expiry ≤ bound
  | [], _, _, h => ⟨Nat.le_refl _, h⟩
  | c :: calls, st, hk, h => by
    obtain ⟨h1, h2, h3⟩ := step_effect cfg st c
    have ih := run_expiry_bound cfg k bound calls (step cfg st c) (by omega)
      (fun s hs ht => by
        rcases h3 s hs with hold | ⟨hnew, _⟩
        · exact h s hold ht
        · have := cfg.generate_inj _ _ (hnew.symm.trans ht)
          omega)
    exact ⟨Nat.le_trans h1 ih.1, ih.2⟩

/-! ### Calls of several callers -/

theorem streak_congr (cfg : Config) {st1 st2 : State} (u : CppString)
    (hc : st1.counters = st2.counters) (hn : st1.now = st2.now) :
    streak cfg st1 u = streak cfg st2 u := by
  simp [streak, counterOf, inWindow, hc, hn]

/-- After an accepted `Authenticate` the new token is live, every other live
token stays live, and the identity is still admitted. -/
theorem accepted_live (cfg : Config) (st : State) {u p : CppString}
    (hu : u ≠ []) (hp : p ≠ []) (hadm : Admit cfg st u = true)
    (hv : cfg.verify u p = true) :
    Admit cfg (Authenticate cfg st u p).2 u = true ∧
    (∃ s, (Authenticate cfg st u p).2.sessions.find?
        (fun s => s.token = cfg.generate st.entropy) = some s ∧
      (Authenticate cfg st u p).2.now < s.expiry) ∧
    ∀ t, t ≠ cfg.generate st.entropy →
      (∃ s, st.sessions.find? (fun s => s.token = t) = some s ∧ st.now < s.expiry) →
      ∃ s, (Authenticate cfg st u p).2.sessions.find? (fun s => s.token = t) = some s ∧
        (Authenticate cfg st u p).2.now < s.expiry := by
  obtain ⟨_, h2, _, h4, h5⟩ := Authenticate_of_accepted cfg st hu hp hadm hv
  refine ⟨?_, ?_, ?_⟩
  · rw [Admit_eq, streak_congr cfg u h4 (h2.trans (RecordSuccess_now st u).symm),
      streak_RecordSuccess]
    rfl
  · rw [h5, h2]
    exact ⟨Session.mk (cfg.generate st.entropy) u st.now (st.now + TOKEN_TTL),
      by simp, by simp [TOKEN_TTL]⟩
  · intro t ht hlive
    rw [h5, h2, List.find?_cons_of_neg _ (by simpa using fun e => ht e.symm)]
    exact hlive

/-- The calls of a schedule, all with credentials the verifier accepts, from a
state that admits the identity: caller by caller the results, and what holds
of the last state. -/
theorem runSchedule_accepted (cfg : Config) {u p : CppString}
    (hu : u ≠ []) (hp : p ≠ []) (hv : cfg.verify u p = true) :
    ∀ (sched : List Nat) (st : State), Admit cfg st u = true →
      (runSchedule cfg u p st sched).1.map (fun x => x.1) = sched ∧
      (runSchedule cfg u p st sched).1.map (fun x => x.2) =
        (List.range' st.entropy sched.length).map (fun k =>
          { success := true, userId := u, token := cfg.generate k, errorCode := none }) ∧
      (∀ x ∈ (runSchedule cfg u p st sched).1,
        ∃ s, (runSchedule cfg u p st sched).2.sessions.find?
            (fun s => s.token = x.2.token) = some s ∧
          (runSchedule cfg u p st sched).2.now < s.expiry) ∧
      ∀ t, (∀ k, st.entropy ≤ k → t ≠ cfg.generate k) →
        (∃ s, st.sessions.find? (fun s => s.token = t) = some s ∧ st.now < s.expiry) →
        ∃ s, (runSchedule cfg u p st sched).2.sessions.find?
            (fun s => s.token = t) = some s ∧
          (runSchedule cfg u p st sched).2.now < s.expiry
  | [], st, _ => ⟨rfl, rfl, fun x hx => by simp [runSchedule] at hx,
      fun _ _ h => h⟩
  | c :: sched, st, hadm => by
    obtain ⟨hres, _, hent, _, _⟩ := Authenticate_of_accepted cfg st hu hp hadm hv
    obtain ⟨hadm1, hnew, hkeep⟩ := accepted_live cfg st hu hp hadm hv
    obtain ⟨ih1, ih2, ih3, ih4⟩ :=
      runSchedule_accepted cfg hu hp hv sched (Authenticate cfg st u p).2 hadm1
    rw [hent] at ih2 ih4
    simp only [runSchedule, List.map_cons, List.length_cons]
    refine ⟨by rw [ih1], ?_, ?_, ?_⟩
    · rw [ih2, hres, List.range'_succ, List.map_cons]
    · intro x hx
      rcases List.mem_cons.1 hx with rfl | hx
      · simp only [hres]
        exact ih4 _ (fun k hk e => by
          have := cfg.generate_inj _ _ e
          omega) hnew
      · exact ih3 x hx
    · intro t ht hlive
      exact ih4 t (fun k hk => ht k (by omega))
        (hkeep t (ht st.entropy (Nat.le_refl _)) hlive)

/-! ### The expectations of `authentication_test.cpp`, evaluated on `testConfig` -/

theorem test_authentication :
    (Authenticate testConfig State.init (lit "testuser") (lit "SecurePass123!")).1
      = { success := true, userId := lit "testuser", token := lit "tok-",
          errorCode := none } ∧
    (Authenticate testConfig State.init (lit "testuser") (lit "WrongPassword")).1
      = AuthResult.failure AuthError.INVALID_CREDENTIALS ∧
    (Authenticate testConfig State.init (lit "") (lit "SecurePass123!")).1
      = AuthResult.failure AuthError.EMPTY_USERNAME ∧
    (Authenticate testConfig State.init (lit "testuser") (lit "")).1
      = AuthResult.failure AuthError.EMPTY_PASSWORD ∧
    (attempts testConfig (lit "testuser") State.init
        (List.replicate 6 (lit "WrongPassword"))).1.getLast?
      = some (AuthResult.failure AuthError.RATE_LIMITED) ∧
    (ValidateToken testConfig
      (AdvanceTime (Authenticate testConfig State.init (lit "testuser")
        (lit "SecurePass123!")).2 3600) (lit "tok-")).1 = false ∧
    (ValidateToken testConfig
      (Authenticate testConfig State.init (lit "testuser") (lit "SecurePass123!")).2
      (lit "tok-")).1 = true ∧
    (ValidateToken testConfig State.init (lit "not-a-valid-token-format")).1 = false ∧
    (ValidateToken testConfig
      (Logout (Authenticate testConfig State.init (lit "testuser")
        (lit "SecurePass123!")).2 (lit "tok-")) (lit "tok-")).1 = false ∧
    (Authenticate testConfig State.init (lit "admin' OR '1'='1") (lit "password")).1.success
      = false := by
  decide

/-! ## The authentication service: the claims -/

/-- C12: for every pair the verifier accepts, both fields non-empty and the
identity admitted by the rate limiter, `Authenticate` returns success, the
username as `userId` and a non-empty token, and `ValidateToken` of that token
is true in the state the call leaves. -/
theorem authenticate_accepted (cfg : Config) (st : State) (u p : CppString)
    (hu : u ≠ []) (hp : p ≠ []) (hadm : Admit cfg st u = true)
    (hv : cfg.verify u p = true) :
    (Authenticate cfg st u p).1.success = true ∧
    (Authenticate cfg st u p).1.userId = u ∧
    (Authenticate cfg st u p).1.token ≠ [] ∧
    (ValidateToken cfg (Authenticate cfg st u p).2 (Authenticate cfg st u p).1.token).1
      = true := by
  obtain ⟨hres, _⟩ := Authenticate_of_accepted cfg st hu hp hadm hv
  obtain ⟨_, hnew, _⟩ := accepted_live cfg st hu hp hadm hv
  rw [ValidateToken_eq_true_iff, hres]
  exact ⟨rfl, rfl, cfg.generate_ne_nil _, cfg.generate_wellFormed _, hnew⟩

/-- C12 at the credentials of the tests, on a new service. -/
theorem authenticate_accepted_witness :
    (Authenticate testConfig State.init (lit "testuser") (lit "SecurePass123!")).1.success
      = true ∧
    (Authenticate testConfig State.init (lit "testuser") (lit "SecurePass123!")).1.userId
      = lit "testuser" ∧
    (Authenticate testConfig State.init (lit "testuser") (lit "SecurePass123!")).1.token
      ≠ [] ∧
    (ValidateToken testConfig
      (Authenticate testConfig State.init (lit "testuser") (lit "SecurePass123!")).2
      (Authenticate testConfig State.init (lit "testuser") (lit "SecurePass123!")).1.token).1
      = true :=
  authenticate_accepted testConfig State.init (lit "testuser") (lit "SecurePass123!")
    (by decide) (by decide) (by decide) (by decide)

/-- C13 fails where both fields are empty: the empty username is found
first, the error code is `EMPTY_USERNAME` and not `EMPTY_PASSWORD`. -/
theorem authenticate_both_empty :
    (Authenticate testConfig State.init [] []).1.errorCode
      = some AuthError.EMPTY_USERNAME ∧
    (Authenticate testConfig State.init [] []).1.errorCode
      ≠ some AuthError.EMPTY_PASSWORD := by
  decide

/-- C13, amended: an empty username always makes `Authenticate` fail with
`EMPTY_USERNAME`, whatever the password (both fields empty included); an
empty password makes it fail with `EMPTY_PASSWORD` whenever the username is
not empty; in each case success is false (and the state is as before). -/
theorem authenticate_empty (cfg : Config) (st : State) (u p : CppString) :
    (u = [] →
      (Authenticate cfg st u p).1.success = false ∧
      (Authenticate cfg st u p).1.errorCode = some AuthError.EMPTY_USERNAME ∧
      (Authenticate cfg st u p).2 = st) ∧
    (u ≠ [] → p = [] →
      (Authenticate cfg st u p).1.success = false ∧
      (Authenticate cfg st u p).1.errorCode = some AuthError.EMPTY_PASSWORD ∧
      (Authenticate cfg st u p).2 = st) := by
  constructor
  · intro hu
    simp [Authenticate, hu, AuthResult.failure]
  · intro hu hp
    simp [Authenticate, hu, hp, AuthResult.failure]

/-- C13, amended, at the inputs of the tests: `("", "SecurePass123!")`,
`("", "")` and `("testuser", "")`. -/
theorem authenticate_empty_witness :
    (Authenticate testConfig State.init [] (lit "SecurePass123!")).1.errorCode
      = some AuthError.EMPTY_USERNAME ∧
    (Authenticate testConfig State.init [] []).1.errorCode
      = some AuthError.EMPTY_USERNAME ∧
    (Authenticate testConfig State.init (lit "testuser") []).1.errorCode
      = some AuthError.EMPTY_PASSWORD ∧
    (Authenticate testConfig State.init (lit "testuser") []).1.success = false :=
  ⟨((authenticate_empty testConfig State.init [] (lit "SecurePass123!")).1 rfl).2.1,
    ((authenticate_empty testConfig State.init [] []).1 rfl).2.1,
    ((authenticate_empty testConfig State.init (lit "testuser") []).2
      (by decide) rfl).2.1,
    ((authenticate_empty testConfig State.init (lit "testuser") []).2
      (by decide) rfl).1⟩

/-- C14: for a non-empty username and a non-empty password the verifier does
not accept for it, the identity admitted by the rate limiter, `Authenticate`
returns success false, an empty token and `INVALID_CREDENTIALS`. -/
theorem authenticate_rejected (cfg : Config) (st : State) (u p : CppString)
    (hu : u ≠ []) (hp : p ≠ []) (hadm : Admit cfg st u = true)
    (hv : cfg.verify u p = false) :
    (Authenticate cfg st u p).1.success = false ∧
    (Authenticate cfg st u p).1.token = [] ∧
    (Authenticate cfg st u p).1.errorCode = some AuthError.INVALID_CREDENTIALS := by
  rw [Authenticate_of_rejected cfg st hu hp hadm hv]
  exact ⟨rfl, rfl, rfl⟩

/-- C14 at `("testuser", "WrongPassword")` on a new service. -/
theorem authenticate_rejected_witness :
    (Authenticate testConfig State.init (lit "testuser") (lit "WrongPassword")).1.success
      = false ∧
    (Authenticate testConfig State.init (lit "testuser") (lit "WrongPassword")).1.token
      = [] ∧
    (Authenticate testConfig State.init (lit "testuser") (lit "WrongPassword")).1.errorCode
      = some AuthError.INVALID_CREDENTIALS :=
  authenticate_rejected testConfig State.init (lit "testuser") (lit "WrongPassword")
    (by decide) (by decide) (by decide) (by decide)

/-- C15 fails for failed attempts with an empty password, which the rate
limiter does not count: after five of them the sixth call, with correct
credentials, succeeds; and after five rejected passwords a sixth call with
an empty password returns `EMPTY_PASSWORD`, not `RATE_LIMITED`. -/
theorem empty_password_not_counted :
    (∀ r ∈ (attempts testConfig (lit "testuser") State.init (List.replicate 5 [])).1,
      r.success = false) ∧
    (Authenticate testConfig
      (attempts testConfig (lit "testuser") State.init (List.replicate 5 [])).2
      (lit "testuser") (lit "SecurePass123!")).1.success = true ∧
    (∀ r ∈ (attempts testConfig (lit "testuser") State.init
        (List.replicate 5 (lit "WrongPassword"))).1, r.success = false) ∧
    (Authenticate testConfig
      (attempts testConfig (lit "testuser") State.init
        (List.replicate 5 (lit "WrongPassword"))).2
      (lit "testuser") []).1.errorCode = some AuthError.EMPTY_PASSWORD := by
  decide

/-- C15, amended: after 5 consecutive failed `Authenticate` attempts for one
identity, each with a non-empty username and a non-empty password, and no
clock advance, the next `Authenticate` call for that identity with a
non-empty password returns success false and `RATE_LIMITED`, whether the
verifier accepts its credentials or not. -/
theorem rate_limited_after_five (cfg : Config) (st : State) (u : CppString)
    (ps : List CppString) (p : CppString) (hu : u ≠ []) (hlen : ps.length = 5)
    (hne : ∀ q ∈ ps, q ≠ [])
    (hfail : ∀ r ∈ (attempts cfg u st ps).1, r.success = false) (hp : p ≠ []) :
    (attempts cfg u st ps).2.now = st.now ∧
    (Authenticate cfg (attempts cfg u st ps).2 u p).1.success = false ∧
    (Authenticate cfg (attempts cfg u st ps).2 u p).1.errorCode
      = some AuthError.RATE_LIMITED := by
  obtain ⟨hnow, hstreak⟩ := attempts_failed cfg hu ps st hne hfail
  have h5 : MAX_FAILED_ATTEMPTS ≤ streak cfg (attempts cfg u st ps).2 u :=
    hstreak (by rw [hlen]; exact Nat.le_add_left _ _)
  have hadm : Admit cfg (attempts cfg u st ps).2 u = false := by
    rw [Admit_eq]
    exact decide_eq_false (Nat.not_lt.2 h5)
  rw [Authenticate_of_not_admitted cfg _ hu hp hadm]
  exact ⟨hnow, rfl, rfl⟩

/-- C15, amended, at the test: five times `("testuser", "WrongPassword")`,
then the correct password. -/
theorem rate_limited_after_five_witness :
    (Authenticate testConfig
      (attempts testConfig (lit "testuser") State.init
        (List.replicate 5 (lit "WrongPassword"))).2
      (lit "testuser") (lit "SecurePass123!")).1.success = false ∧
    (Authenticate testConfig
      (attempts testConfig (lit "testuser") State.init
        (List.replicate 5 (lit "WrongPassword"))).2
      (lit "testuser") (lit "SecurePass123!")).1.errorCode
      = some AuthError.RATE_LIMITED :=
  (rate_limited_after_five testConfig State.init (lit "testuser")
    (List.replicate 5 (lit "WrongPassword")) (lit "SecurePass123!")
    (by decide) (by decide) (by decide) (by decide) (by decide)).2

/-- C16: a token issued by a successful `Authenticate` (in any state the
service can reach) is refused by `ValidateToken` in every state reached by
later calls in which the clock is at or past issue time + `TOKEN_TTL`. -/
theorem token_expires (cfg : Config) (before later : List Call) (u p : CppString)
    (hs : (Authenticate cfg (run cfg State.init before) u p).1.success = true)
    (hlate : (run cfg State.init before).now + TOKEN_TTL ≤
      (run cfg (Authenticate cfg (run cfg State.init before) u p).2 later).now) :
    (ValidateToken cfg
      (run cfg (Authenticate cfg (run cfg State.init before) u p).2 later)
      (Authenticate cfg (run cfg State.init before) u p).1.token).1 = false := by
  obtain ⟨hu, hp, hadm, hv⟩ := Authenticate_success hs
  obtain ⟨hres, _, hent, _, hsess⟩ :=
    Authenticate_of_accepted cfg (run cfg State.init before) hu hp hadm hv
  have hfresh := run_fresh cfg before State.init
    (fun s h => by simp [State.init] at h)
  have hbound := run_expiry_bound cfg (run cfg State.init before).entropy
    ((run cfg State.init before).now + TOKEN_TTL) later
    (Authenticate cfg (run cfg State.init before) u p).2 (by omega)
    (fun s h ht => by
      rw [hsess] at h
      rcases List.mem_cons.1 h with rfl | h
      · exact Nat.le_refl _
      · obtain ⟨k, hk, e⟩ := hfresh s h
        have := cfg.generate_inj _ _ (e.symm.trans ht)
        omega)
  rw [hres]
  by_contra hval
  have hval : (ValidateToken cfg
      (run cfg (Authenticate cfg (run cfg State.init before) u p).2 later)
      (cfg.generate (run cfg State.init before).entropy)).1 = true := by
    simpa using hval
  obtain ⟨_, s, hfind, hlive⟩ := (ValidateToken_eq_true_iff cfg _ _).1 hval
  have h1 := hbound.2 s (List.mem_of_find?_eq_some hfind)
    (by simpa using List.find?_some hfind)
  omega

/-- C16 at the test: the token of `("testuser", "SecurePass123!")`, then
`AdvanceTime(1800)`, a second login, `AdvanceTime(1800)`. -/
theorem token_expires_witness :
    (ValidateToken testConfig
      (run testConfig
        (Authenticate testConfig (run testConfig State.init [])
          (lit "testuser") (lit "SecurePass123!")).2
        [Call.advanceTime 1800,
          Call.authenticate (lit "testuser") (lit "SecurePass123!"),
          Call.advanceTime 1800])
      (Authenticate testConfig (run testConfig State.init [])
        (lit "testuser") (lit "SecurePass123!")).1.token).1 = false :=
  token_expires testConfig []
    [Call.advanceTime 1800, Call.authenticate (lit "testuser") (lit "SecurePass123!"),
      Call.advanceTime 1800]
    (lit "testuser") (lit "SecurePass123!") (by decide) (by decide)

/-- C17: `ValidateToken` of a token is false after `Logout` of it; a second
`Logout` of the token changes nothing, and `Logout` of a token no session
bears changes nothing (`Logout` returns the next state and has no error to
signal). -/
theorem logout_invalidates (cfg : Config) (st : State) (token : CppString) :
    (ValidateToken cfg (Logout st token) token).1 = false ∧
    Logout (Logout st token) token = Logout st token ∧
    ((∀ s ∈ st.sessions, s.token ≠ token) → Logout st token = st) := by
  refine ⟨?_, ?_, ?_⟩
  · by_contra hval
    have hval : (ValidateToken cfg (Logout st token) token).1 = true := by
      simpa using hval
    obtain ⟨_, s, hfind, _⟩ := (ValidateToken_eq_true_iff cfg _ _).1 hval
    have hmem := List.mem_of_find?_eq_some hfind
    have htok := List.find?_some hfind
    simp only [Logout, Revoke, List.mem_filter] at hmem
    simp at htok
    simp [htok] at hmem
  · simp [Logout, Revoke, List.filter_filter]
  · intro h
    have : st.sessions.filter (fun s => s.token ≠ token) = st.sessions :=
      List.filter_eq_self.2 fun s hs => by simpa using h s hs
    simp only [Logout, Revoke, this]

/-- C17 at the test: login, `Logout` of the token; and `Logout` of a string
that is no token. -/
theorem logout_invalidates_witness :
    (ValidateToken testConfig
      (Logout (Authenticate testConfig State.init (lit "testuser")
        (lit "SecurePass123!")).2 (testGenerate 0)) (testGenerate 0)).1 = false ∧
    Logout (Authenticate testConfig State.init (lit "testuser")
        (lit "SecurePass123!")).2 (lit "not-a-valid-token-format")
      = (Authenticate testConfig State.init (lit "testuser") (lit "SecurePass123!")).2 :=
  ⟨(logout_invalidates testConfig (Authenticate testConfig State.init (lit "testuser")
      (lit "SecurePass123!")).2 (testGenerate 0)).1,
    (logout_invalidates testConfig (Authenticate testConfig State.init (lit "testuser")
      (lit "SecurePass123!")).2 (lit "not-a-valid-token-format")).2.2 (by decide)⟩

/-- Logins taken one at a time: when `n` callers make one `Authenticate` call
each with the same accepted credentials and the calls run one after the other
in the order of any schedule, every caller gets a success, the `n` tokens are
pairwise distinct, and all of them pass `ValidateToken` in the last state. -/
theorem scheduled_authenticate (cfg : Config) (st : State) (u p : CppString)
    (n : Nat) (sched : List Nat) (hsched : sched.Perm (List.range n))
    (hu : u ≠ []) (hp : p ≠ []) (hadm : Admit cfg st u = true)
    (hv : cfg.verify u p = true) :
    (∀ caller, caller < n →
      ∃ r, (caller, r) ∈ (runSchedule cfg u p st sched).1 ∧ r.success = true) ∧
    (runSchedule cfg u p st sched).1.length = n ∧
    (∀ x ∈ (runSchedule cfg u p st sched).1,
      x.2.success = true ∧
      (ValidateToken cfg (runSchedule cfg u p st sched).2 x.2.token).1 = true) ∧
    ((runSchedule cfg u p st sched).1.map fun x => x.2.token).Nodup := by
  obtain ⟨h1, h2, h3, _⟩ := runSchedule_accepted cfg hu hp hv sched st hadm
  have hall : ∀ x ∈ (runSchedule cfg u p st sched).1,
      ∃ k, x.2 = { success := true, userId := u, token := cfg.generate k,
                   errorCode := none } := by
    intro x hx
    have hx2 : x.2 ∈ (runSchedule cfg u p st sched).1.map (fun x => x.2) :=
      List.mem_map_of_mem _ hx
    rw [h2] at hx2
    obtain ⟨k, _, hk⟩ := List.mem_map.1 hx2
    exact ⟨k, hk.symm⟩
  refine ⟨?_, ?_, ?_, ?_⟩
  · intro caller hc
    have hmem : caller ∈ (runSchedule cfg u p st sched).1.map (fun x => x.1) := by
      rw [h1]
      exact hsched.symm.subset (List.mem_range.2 hc)
    obtain ⟨x, hx, rfl⟩ := List.mem_map.1 hmem
    obtain ⟨k, hk⟩ := hall x hx
    exact ⟨x.2, hx, by rw [hk]⟩
  · have := congrArg List.length h1
    rw [List.length_map] at this
    rw [this, hsched.length_eq, List.length_range]
  · intro x hx
    obtain ⟨k, hk⟩ := hall x hx
    refine ⟨by rw [hk], ?_⟩
    rw [ValidateToken_eq_true_iff]
    refine ⟨by rw [hk]; exact cfg.generate_wellFormed k, h3 x hx⟩
  · have e : (runSchedule cfg u p st sched).1.map (fun x => x.2.token) =
        (List.range' st.entropy sched.length).map cfg.generate := by
      have := congrArg (List.map fun r : AuthResult => r.token) h2
      simpa [List.map_map, Function.comp_def] using this
    rw [e]
    exact (List.nodup_range' _ _).map fun a b h => cfg.generate_inj a b h

/-- Three callers, scheduled in the order 2, 0, 1. -/
theorem scheduled_authenticate_example :
    (runSchedule testConfig (lit "testuser") (lit "SecurePass123!") State.init
      [2, 0, 1]).1.length = 3 ∧
    (∀ x ∈ (runSchedule testConfig (lit "testuser") (lit "SecurePass123!")
        State.init [2, 0, 1]).1,
      x.2.success = true ∧
      (ValidateToken testConfig
        (runSchedule testConfig (lit "testuser") (lit "SecurePass123!")
          State.init [2, 0, 1]).2 x.2.token).1 = true) ∧
    ((runSchedule testConfig (lit "testuser") (lit "SecurePass123!") State.init
      [2, 0, 1]).1.map fun x => x.2.token).Nodup :=
  (scheduled_authenticate testConfig State.init (lit "testuser")
    (lit "SecurePass123!") 3 [2, 0, 1] (by decide) (by decide) (by decide)
    (by decide) (by decide)).2

end security
